import Mathlib

/-!
Verification of the virtual-thread injection pass and the bounds-checker
instrumentation pass of `src/pass/inject_virtual_thread.cc`.

The IR (statements and expressions), the touch analysis (`ExprTouched`,
`VarTouchedAnalysis`), the virtual-thread rewriter (`VTInjector`,
`VirtualThreadInjector`) and the bounds instrumenter (`BoundCollector`,
`BoundChecker`) are shallowly embedded below as executable Lean
definitions.  C++ `CHECK`/`LOG(FATAL)` aborts are modelled by the
`Except String` monad; nullable `Expr` handles are modelled by `Option`
where the code tests definedness.  Variables and buffer variables are
identified by their names (the C++ code identifies them by node
pointers; all inputs of interest use distinct names).
-/

namespace TVM

/-- Data types of IR values.  `code` is 0 for Int, 1 for UInt, 2 for
Float, 3 for Handle, mirroring the runtime type codes. -/
structure DataType where
  code : Nat
  bits : Nat
  lanes : Nat
deriving Repr

def DataType.isScalar (t : DataType) : Bool := t.lanes == 1

def DataType.withLanes (t : DataType) (l : Nat) : DataType :=
  { t with lanes := l }

/-- `DataType::Int(32)` -/
def i32 : DataType := ⟨0, 32, 1⟩
/-- `DataType::Int(64)` -/
def i64 : DataType := ⟨0, 64, 1⟩
/-- `DataType::UInt(64)` -/
def u64 : DataType := ⟨1, 64, 1⟩
/-- boolean type `UInt(1)` -/
def boolTy : DataType := ⟨1, 1, 1⟩
/-- handle type (used for string immediates) -/
def handleTy : DataType := ⟨3, 64, 1⟩

/-- IR expressions.  `IntImm` also stands for the `UIntImm` node, the
`dtype` field distinguishing the two.  `Variable` carries its name and
type; buffer variables inside `Load`/`Store`/`Allocate` are referenced
by name, as the C++ mutators never visit them as expressions. -/
inductive Expr where
  | Variable (name : String) (dtype : DataType)
  | IntImm (dtype : DataType) (value : Int)
  | StringImm (value : String)
  | Load (dtype : DataType) (buffer : String) (index pred : Expr)
  | Call (dtype : DataType) (name : String) (args : List Expr) (callType : Nat)
  | Ramp (base stride : Expr) (lanes : Nat)
  | Add (a b : Expr)
  | Mul (a b : Expr)
  | Div (a b : Expr)
  | GE (a b : Expr)
  | LT (a b : Expr)
  | And (a b : Expr)
  | Cast (dtype : DataType) (a : Expr)
deriving Repr

/-- The `dtype()` of an expression node, as stored by the C++
constructors: binary arithmetic nodes take the type of their left
operand, comparisons produce booleans with the operand lane count,
`Ramp` vectorizes its base type. -/
def Expr.dtypeOf : Expr → DataType
  | .Variable _ t => t
  | .IntImm t _ => t
  | .StringImm _ => handleTy
  | .Load t _ _ _ => t
  | .Call t _ _ _ => t
  | .Ramp base _ lanes => base.dtypeOf.withLanes lanes
  | .Add a _ => a.dtypeOf
  | .Mul a _ => a.dtypeOf
  | .Div a _ => a.dtypeOf
  | .GE a _ => boolTy.withLanes a.dtypeOf.lanes
  | .LT a _ => boolTy.withLanes a.dtypeOf.lanes
  | .And a _ => boolTy.withLanes a.dtypeOf.lanes
  | .Cast t _ => t

/-- Attribute-statement annotation node: an `IterVar` (for
`virtual_thread`), a bare variable (for `buffer_bound`), or anything
else. -/
inductive AttrNode where
  | iterVar (varName : String) (dtype : DataType) (threadTag : String)
  | varNode (name : String) (dtype : DataType)
  | other
deriving Repr

/-- IR statements.  `For.forType`/`device` are numeric codes
(`ForType::Serial = 0`, `DeviceAPI::None = 0`).  `Allocate.newExpr`
models the nullable `new_expr` handle.  An `IfThenElse` node whose
`else_case` handle is null is modelled by the separate constructor
`IfThen`, so that `Stmt` stays a plain (non-nested) inductive. -/
inductive Stmt where
  | LetStmt (var : String) (dtype : DataType) (value : Expr) (body : Stmt)
  | Store (buffer : String) (value index pred : Expr)
  | For (loopVar : String) (dtype : DataType) (min extent : Expr)
        (forType device : Nat) (body : Stmt)
  | Evaluate (value : Expr)
  | Allocate (buffer : String) (dtype : DataType) (extents : List Expr)
             (cond : Expr) (body : Stmt) (newExpr : Option Expr)
  | AttrStmt (node : AttrNode) (key : String) (value : Expr) (body : Stmt)
  | IfThenElse (cond : Expr) (thenCase elseCase : Stmt)
  | IfThen (cond : Expr) (thenCase : Stmt)
  | Block (first rest : Stmt)
  | AssertStmt (cond msg : Expr) (body : Stmt)
deriving Repr

/-- `make_const(t, v)` -/
def makeConst (t : DataType) (v : Int) : Expr := .IntImm t v

/-- `make_zero(t)` -/
def makeZero (t : DataType) : Expr := .IntImm t 0

/-- `is_zero(e)` -/
def isZero : Expr → Bool
  | .IntImm _ v => v == 0
  | _ => false

/-- `is_negative_const(e)`: a (signed) integer immediate below zero. -/
def isNegativeConst : Expr → Bool
  | .IntImm t v => t.code == 0 && decide (v < 0)
  | _ => false

/-- `arith::GetConstInt(e, &out)` -/
def getConstInt : Expr → Option Int
  | .IntImm _ v => some v
  | _ => none

/-- Association-list lookup keyed by variable name (models
`std::unordered_map::find`). -/
def lookupMap {α : Type} (m : List (String × α)) (k : String) : Option α :=
  match m with
  | [] => none
  | (k', v) :: rest => if k' = k then some v else lookupMap rest k

/-- Association-list insert/overwrite (models `map[k] = v`). -/
def setMap {α : Type} (m : List (String × α)) (k : String) (v : α) :
    List (String × α) :=
  match m with
  | [] => [(k, v)]
  | (k', v') :: rest =>
      if k' = k then (k, v) :: rest else (k', v') :: setMap rest k v

theorem lookupMap_setMap_self {α : Type} (m : List (String × α)) (k : String)
    (v : α) : lookupMap (setMap m k v) k = some v := by
  induction m with
  | nil => simp [setMap, lookupMap]
  | cons hd tl ih =>
    obtain ⟨k', v'⟩ := hd
    by_cases h : k' = k <;> simp [setMap, lookupMap, h, ih]

theorem lookupMap_setMap_other {α : Type} (m : List (String × α))
    (k k' : String) (v : α) (h : k ≠ k') :
    lookupMap (setMap m k v) k' = lookupMap m k' := by
  induction m with
  | nil => simp [setMap, lookupMap, h]
  | cons hd tl ih =>
    obtain ⟨k0, v0⟩ := hd
    by_cases h0 : k0 = k
    · subst h0; simp [setMap, lookupMap, h]
    · simp [setMap, h0, lookupMap]
      by_cases h1 : k0 = k' <;> simp [h1, ih]

end TVM

namespace TVM

/-! ## Touch analysis (`ExprTouched`, `VarTouchedAnalysis`) -/

/-- Mutable state of the `ExprTouched` visitor: the `expr_touched_`
flag, the `used_vars_` list and the `write_vars_` list. -/
structure TouchState where
  exprTouched : Bool := false
  usedVars : List String := []
  writeVars : List String := []
deriving Repr

/-- `ExprTouched::HandleUseVar`: set the flag if the variable is in the
touched set, and record it as used when the flag is (still) clear. -/
def handleUseVar (touched : List String) (ts : TouchState) (v : String) :
    TouchState :=
  let t := ts.exprTouched || touched.contains v
  { ts with exprTouched := t,
            usedVars := if t then ts.usedVars else ts.usedVars ++ [v] }

/-- `ExprTouched::HandleWriteVar` -/
def handleWriteVar (ts : TouchState) (v : String) : TouchState :=
  { ts with writeVars := ts.writeVars ++ [v] }

mutual

/-- `ExprTouched::VisitExpr` with the per-node early stop, and the
per-node handlers (`Load`, `Variable`, `Call`). -/
def exprTouchedVisit (touched : List String) (checkWrite : Bool)
    (ts : TouchState) (e : Expr) : Except String TouchState :=
  if ts.exprTouched && !checkWrite then .ok ts
  else
      match e with
      | .Variable n _ => .ok (handleUseVar touched ts n)
      | .IntImm _ _ => .ok ts
      | .StringImm _ => .ok ts
      | .Load _ buf idx pred => do
          let ts := handleUseVar touched ts buf
          let ts ← exprTouchedVisit touched checkWrite ts idx
          exprTouchedVisit touched checkWrite ts pred
      | .Call _ n args _ =>
          if n == "tvm_access_ptr" then
            match args with
            | _ :: a1 :: a2 :: _ :: a4 :: _ =>
              match getConstInt a4 with
              | none => .error "CHECK GetConstInt rw_mask"
              | some mask =>
                match a1 with
                | .Variable bname _ =>
                    let m := mask.toNat
                    let ts := if m % 2 == 1 then handleUseVar touched ts bname
                              else ts
                    let ts := if m / 2 % 2 == 1 then handleWriteVar ts bname
                              else ts
                    exprTouchedVisit touched checkWrite ts a2
                | _ => .error "CHECK buffer_var"
            | _ => .error "access_ptr args out of range"
          else exprTouchedVisitList touched checkWrite ts args
      | .Ramp b s _ => do
          let ts ← exprTouchedVisit touched checkWrite ts b
          exprTouchedVisit touched checkWrite ts s
      | .Add a b => do
          let ts ← exprTouchedVisit touched checkWrite ts a
          exprTouchedVisit touched checkWrite ts b
      | .Mul a b => do
          let ts ← exprTouchedVisit touched checkWrite ts a
          exprTouchedVisit touched checkWrite ts b
      | .Div a b => do
          let ts ← exprTouchedVisit touched checkWrite ts a
          exprTouchedVisit touched checkWrite ts b
      | .GE a b => do
          let ts ← exprTouchedVisit touched checkWrite ts a
          exprTouchedVisit touched checkWrite ts b
      | .LT a b => do
          let ts ← exprTouchedVisit touched checkWrite ts a
          exprTouchedVisit touched checkWrite ts b
      | .And a b => do
          let ts ← exprTouchedVisit touched checkWrite ts a
          exprTouchedVisit touched checkWrite ts b
      | .Cast _ a => exprTouchedVisit touched checkWrite ts a

termination_by sizeOf e

/-- Visit a list of call arguments in order. -/
def exprTouchedVisitList (touched : List String) (checkWrite : Bool)
    (ts : TouchState) (l : List Expr) : Except String TouchState :=
  match l with
  | [] => .ok ts
  | e :: rest => do
      let ts ← exprTouchedVisit touched checkWrite ts e
      exprTouchedVisitList touched checkWrite ts rest
termination_by sizeOf l

end

/-- State of `VarTouchedAnalysis`: the touched-variable set and the
`affect` graph (`x -> all the variables defined from a read of x`). -/
structure TAState where
  touched : List String
  affect : List (String × List String)
deriving Repr

/-- `affect[u]` -/
def succs (affect : List (String × List String)) (u : String) : List String :=
  (lookupMap affect u).getD []

/-- `VarTouchedAnalysis::Record` -/
def record (st : TAState) (var : String) (tc : TouchState) : TAState :=
  if st.touched.contains var then st
  else if tc.exprTouched then { st with touched := st.touched ++ [var] }
  else
    let aff := tc.usedVars.foldl
      (fun a r => if r ≠ var then setMap a r (succs a r ++ [var]) else a)
      st.affect
    { st with affect := aff }

/-- The statement walk of `VarTouchedAnalysis` (its `VisitStmt_`
overrides; the default statement visitor recurses into
sub-statements only, since the plain `StmtVisitor` ignores
expression children). -/
def varTouchWalk (st : TAState) : Stmt → Except String TAState
  | .LetStmt v _ value body => do
      let tc ← exprTouchedVisit st.touched false {} value
      varTouchWalk (record st v tc) body
  | .Store buf value idx _ => do
      let tc ← exprTouchedVisit st.touched false {} value
      let tc ← exprTouchedVisit st.touched false tc idx
      .ok (record st buf tc)
  | .For lv _ mn ext _ _ body => do
      let tc ← exprTouchedVisit st.touched false {} mn
      let tc ← exprTouchedVisit st.touched false tc ext
      varTouchWalk (record st lv tc) body
  | .Evaluate v => do
      let tc ← exprTouchedVisit st.touched true {} v
      .ok (tc.writeVars.foldl (fun s w => record s w tc) st)
  | .Allocate buf _ extents cond body newExpr => do
      let tc ← exprTouchedVisitList st.touched false {} extents
      let tc ← exprTouchedVisit st.touched false tc cond
      let tc ← match newExpr with
               | some e => exprTouchedVisit st.touched false tc e
               | none => .ok tc
      varTouchWalk (record st buf tc) body
  | .AttrStmt _ _ _ body => varTouchWalk st body
  | .IfThenElse _ thenCase elseCase => do
      let st ← varTouchWalk st thenCase
      varTouchWalk st elseCase
  | .IfThen _ thenCase => varTouchWalk st thenCase
  | .Block first rest => do
      let st ← varTouchWalk st first
      varTouchWalk st rest
  | .AssertStmt _ _ body => varTouchWalk st body

theorem contains_iff_mem {l : List String} {x : String} :
    l.contains x = true ↔ x ∈ l := by
  simp [List.contains, List.elem_iff]

/-- All variables appearing as targets of `affect` edges. -/
def affectTargets (affect : List (String × List String)) : List String :=
  affect.foldr (fun p acc => p.2 ++ acc) []

theorem mem_affectTargets_of_succ {affect : List (String × List String)}
    {u x : String} (h : x ∈ succs affect u) : x ∈ affectTargets affect := by
  induction affect with
  | nil => simp [succs, lookupMap] at h
  | cons hd tl ih =>
    obtain ⟨k, vs⟩ := hd
    simp only [succs, lookupMap] at h
    by_cases hk : k = u
    · simp [hk] at h
      simp [affectTargets, h]
    · simp only [hk, if_false] at h
      simp only [affectTargets, List.foldr_cons, List.mem_append]
      exact Or.inr (ih h)

/-- The variables of `l` that the worklist step newly inserts: those
not already in `touched`, deduplicated, in order. -/
def newFrom (touched l : List String) : List String :=
  l.foldl
    (fun acc r => if touched.contains r || acc.contains r then acc
                  else acc ++ [r]) []

theorem mem_foldl_newFrom {touched : List String} {x : String} :
    ∀ (l acc : List String),
      x ∈ l.foldl (fun acc r => if touched.contains r || acc.contains r
                                then acc else acc ++ [r]) acc →
      x ∈ acc ∨ (x ∈ l ∧ touched.contains x = false) := by
  intro l
  induction l with
  | nil => intro acc h; exact Or.inl h
  | cons r rest ih =>
    intro acc h
    simp only [List.foldl_cons] at h
    rcases ih _ h with h' | h'
    · by_cases hc : (touched.contains r || acc.contains r) = true
      · rw [if_pos hc] at h'
        exact Or.inl h'
      · rw [if_neg hc] at h'
        rcases List.mem_append.mp h' with h'' | h''
        · exact Or.inl h''
        · simp at h''
          subst h''
          simp only [Bool.or_eq_true, not_or, Bool.not_eq_true] at hc
          exact Or.inr ⟨List.mem_cons_self _ _, hc.1⟩
    · exact Or.inr ⟨List.mem_cons_of_mem _ h'.1, h'.2⟩

theorem mem_newFrom {touched l x} (h : x ∈ newFrom touched l) :
    x ∈ l ∧ touched.contains x = false := by
  rcases mem_foldl_newFrom l [] h with h' | h'
  · simp at h'
  · exact h'

theorem foldl_newFrom_acc_sub {touched : List String} {x : String} :
    ∀ (l acc : List String), x ∈ acc →
      x ∈ l.foldl (fun acc r => if touched.contains r || acc.contains r
                                then acc else acc ++ [r]) acc := by
  intro l
  induction l with
  | nil => intro acc h; exact h
  | cons r rest ih =>
    intro acc h
    simp only [List.foldl_cons]
    apply ih
    by_cases hc : (touched.contains r || acc.contains r) = true
    · rw [if_pos hc]; exact h
    · rw [if_neg hc]; exact List.mem_append.mpr (Or.inl h)

theorem touched_or_mem_newFrom {touched : List String} {r : String} :
    ∀ (l : List String), r ∈ l →
      touched.contains r = true ∨ r ∈ newFrom touched l := by
  have main : ∀ (l acc : List String), r ∈ l →
      touched.contains r = true ∨
      r ∈ l.foldl (fun acc r => if touched.contains r || acc.contains r
                                then acc else acc ++ [r]) acc := by
    intro l
    induction l with
    | nil => intro acc h; simp at h
    | cons a rest ih =>
      intro acc h
      rcases List.mem_cons.mp h with h' | h'
      · subst h'
        by_cases ht : touched.contains r = true
        · exact Or.inl ht
        · right
          simp only [Bool.not_eq_true] at ht
          simp only [List.foldl_cons]
          apply foldl_newFrom_acc_sub
          by_cases ha : acc.contains r = true
          · simp only [ht, ha, Bool.false_or, if_true]
            exact contains_iff_mem.mp ha
          · simp only [Bool.not_eq_true] at ha
            simp only [ht, ha, Bool.or_self, if_false]
            simp
      · simp only [List.foldl_cons]
        exact ih _ h'
  intro l h
  exact main l [] h

theorem length_filter_le_of_imp (p q : String → Bool) (l : List String)
    (himp : ∀ x, q x = true → p x = true) :
    (l.filter q).length ≤ (l.filter p).length := by
  induction l with
  | nil => simp
  | cons a rest ih =>
    by_cases hq : q a = true
    · have hp := himp a hq
      simp only [List.filter_cons, hq, hp, if_true]
      simpa using ih
    · simp only [Bool.not_eq_true] at hq
      simp only [List.filter_cons, hq, Bool.false_eq_true, if_false]
      by_cases hp : p a = true
      · simp only [hp, if_true, List.length_cons]
        omega
      · simp only [hp, Bool.false_eq_true, if_false]
        exact ih

theorem length_filter_lt_of_imp (p q : String → Bool) (l : List String)
    (himp : ∀ x, q x = true → p x = true) (x0 : String) (hx0 : x0 ∈ l)
    (hp : p x0 = true) (hq : q x0 = false) :
    (l.filter q).length < (l.filter p).length := by
  induction l with
  | nil => simp at hx0
  | cons a rest ih =>
    rcases List.mem_cons.mp hx0 with h' | h'
    · subst h'
      simp only [List.filter_cons, hq, Bool.false_eq_true, if_false, hp,
        if_true, List.length_cons]
      have := length_filter_le_of_imp p q rest himp
      omega
    · have hrest := ih h'
      by_cases hqa : q a = true
      · have hpa := himp a hqa
        simp only [List.filter_cons, hqa, hpa, if_true, List.length_cons]
        omega
      · simp only [Bool.not_eq_true] at hqa
        simp only [List.filter_cons, hqa, Bool.false_eq_true, if_false]
        by_cases hpa : p a = true
        · simp only [hpa, if_true, List.length_cons]
          omega
        · simp only [hpa, Bool.false_eq_true, if_false]
          exact hrest

theorem contains_eq_false_iff {l : List String} {x : String} :
    l.contains x = false ↔ x ∉ l := by
  rw [← contains_iff_mem]
  cases h : l.contains x <;> simp

/-- The worklist transitive closure at the end of
`VarTouchedAnalysis::TouchedVar`: pop a variable, insert and push every
not-yet-touched variable it affects.  Termination: every inserted
variable is a target of the `affect` graph that was not yet touched, so
either the set of untouched targets shrinks or the worklist shortens. -/
def closure (affect : List (String × List String))
    (touched pending : List String) : List String :=
  match pending with
  | [] => touched
  | v :: rest =>
      closure affect (touched ++ newFrom touched (succs affect v))
              (rest ++ newFrom touched (succs affect v))
termination_by
  (((affectTargets affect).filter (fun x => !touched.contains x)).length,
   pending.length)
decreasing_by
  by_cases hn : newFrom touched (succs affect v) = []
  · rw [hn]
    simp only [List.append_nil]
    exact Prod.Lex.right _ (by simp)
  · apply Prod.Lex.left
    obtain ⟨x0, hx0⟩ := List.exists_mem_of_ne_nil _ hn
    have hx0' := mem_newFrom hx0
    refine length_filter_lt_of_imp _ _ _ ?_ x0
      (mem_affectTargets_of_succ hx0'.1) ?_ ?_
    · intro x hx
      rw [Bool.not_eq_true'] at hx ⊢
      rw [contains_eq_false_iff] at hx ⊢
      intro hmem
      exact hx (List.mem_append.mpr (Or.inl hmem))
    · rw [Bool.not_eq_true']
      exact hx0'.2
    · rw [Bool.not_eq_false']
      exact contains_iff_mem.mpr (List.mem_append.mpr (Or.inr hx0))

/-- Reachability in the `affect` graph from the seed set: the least set
containing the seeds and closed under `affect` edges. -/
inductive Reaches (affect : List (String × List String))
    (seeds : List String) : String → Prop
  | seed {x : String} (h : x ∈ seeds) : Reaches affect seeds x
  | step {u r : String} (hu : Reaches affect seeds u)
      (hr : r ∈ succs affect u) : Reaches affect seeds r

theorem closure_sound (affect : List (String × List String))
    (seeds : List String) :
    ∀ touched pending,
      (∀ x ∈ touched, Reaches affect seeds x) →
      (∀ x ∈ pending, Reaches affect seeds x) →
      ∀ x ∈ closure affect touched pending, Reaches affect seeds x := by
  intro touched pending
  induction touched, pending using closure.induct affect with
  | case1 touched =>
    intro h1 _ x hx
    rw [closure] at hx
    exact h1 x hx
  | case2 touched v rest ih =>
    intro h1 h2 x hx
    rw [closure] at hx
    refine ih ?_ ?_ x hx
    · intro y hy
      rcases List.mem_append.mp hy with hy' | hy'
      · exact h1 y hy'
      · have := mem_newFrom hy'
        exact Reaches.step (h2 v (by simp)) this.1
    · intro y hy
      rcases List.mem_append.mp hy with hy' | hy'
      · exact h2 y (List.mem_cons_of_mem _ hy')
      · have := mem_newFrom hy'
        exact Reaches.step (h2 v (by simp)) this.1

theorem closure_mono (affect : List (String × List String)) :
    ∀ touched pending, ∀ x ∈ touched, x ∈ closure affect touched pending := by
  intro touched pending
  induction touched, pending using closure.induct affect with
  | case1 touched =>
    intro x hx
    rw [closure]
    exact hx
  | case2 touched v rest ih =>
    intro x hx
    rw [closure]
    exact ih x (List.mem_append.mpr (Or.inl hx))

theorem closure_closed (affect : List (String × List String)) :
    ∀ touched pending,
      (∀ x ∈ pending, x ∈ touched) →
      (∀ u ∈ touched, u ∈ pending ∨ ∀ r ∈ succs affect u, r ∈ touched) →
      ∀ u ∈ closure affect touched pending, ∀ r ∈ succs affect u,
        r ∈ closure affect touched pending := by
  intro touched pending
  induction touched, pending using closure.induct affect with
  | case1 touched =>
    intro _ h2 u hu r hr
    rw [closure] at hu ⊢
    rcases h2 u hu with h | h
    · simp at h
    · exact h r hr
  | case2 touched v rest ih =>
    intro h1 h2 u hu r hr
    rw [closure] at hu ⊢
    refine ih ?_ ?_ u hu r hr
    · intro y hy
      rcases List.mem_append.mp hy with hy' | hy'
      · exact List.mem_append.mpr (Or.inl (h1 y (List.mem_cons_of_mem _ hy')))
      · exact List.mem_append.mpr (Or.inr hy')
    · intro y hy
      rcases List.mem_append.mp hy with hy' | hy'
      · rcases h2 y hy' with h | h
        · rcases List.mem_cons.mp h with h' | h'
          · subst h'
            right
            intro r' hr'
            rcases touched_or_mem_newFrom _ hr' with hc | hc
            · exact List.mem_append.mpr (Or.inl (contains_iff_mem.mp hc))
            · exact List.mem_append.mpr (Or.inr hc)
          · exact Or.inl (List.mem_append.mpr (Or.inl h'))
        · right
          intro r' hr'
          exact List.mem_append.mpr (Or.inl (h r' hr'))
      · exact Or.inl (List.mem_append.mpr (Or.inr hy'))

theorem closure_complete (affect : List (String × List String))
    (seeds : List String) :
    ∀ x, Reaches affect seeds x → x ∈ closure affect seeds seeds := by
  intro x h
  induction h with
  | seed h => exact closure_mono affect seeds seeds _ h
  | step hu hr ih =>
    exact closure_closed affect seeds seeds (fun y hy => hy)
      (fun u hu' => Or.inl hu') _ ih _ hr

/-- `VarTouchedAnalysis::TouchedVar`: seed the touched set with the
thread variable, run the statement walk, then run the worklist
closure over the `affect` graph. -/
def TouchedVar (s : Stmt) (v : String) : Except String (List String) := do
  let st ← varTouchWalk ⟨[v], []⟩ s
  .ok (closure st.affect st.touched st.touched)

theorem record_touched_sub {st : TAState} {v : String} {tc : TouchState}
    {x : String} (h : x ∈ st.touched) : x ∈ (record st v tc).touched := by
  unfold record
  split
  · exact h
  · split
    · simp only [List.mem_append]
      exact Or.inl h
    · exact h

theorem foldl_record_touched_sub {tc : TouchState} {x : String} :
    ∀ (ws : List String) (st : TAState), x ∈ st.touched →
      x ∈ (ws.foldl (fun s w => record s w tc) st).touched := by
  intro ws
  induction ws with
  | nil => intro st h; exact h
  | cons w rest ih =>
    intro st h
    exact ih _ (record_touched_sub h)

theorem varTouchWalk_touched_sub :
    ∀ (s : Stmt) (st st' : TAState), varTouchWalk st s = .ok st' →
      ∀ x ∈ st.touched, x ∈ st'.touched := by
  intro s
  induction s with
  | LetStmt v t value body ih =>
    intro st st' h x hx
    simp only [varTouchWalk, Bind.bind, Except.bind] at h
    split at h
    · simp at h
    · exact ih _ _ h x (record_touched_sub hx)
  | Store buf value idx pred =>
    intro st st' h x hx
    simp only [varTouchWalk, Bind.bind, Except.bind] at h
    split at h
    · simp at h
    · split at h
      · simp at h
      · cases h
        exact record_touched_sub hx
  | For lv t mn ext ftype dev body ih =>
    intro st st' h x hx
    simp only [varTouchWalk, Bind.bind, Except.bind] at h
    split at h
    · simp at h
    · split at h
      · simp at h
      · exact ih _ _ h x (record_touched_sub hx)
  | Evaluate v =>
    intro st st' h x hx
    simp only [varTouchWalk, Bind.bind, Except.bind] at h
    split at h
    · simp at h
    · cases h
      exact foldl_record_touched_sub _ _ hx
  | Allocate buf t extents cond body newExpr ih =>
    intro st st' h x hx
    simp only [varTouchWalk, Bind.bind, Except.bind] at h
    split at h
    · simp at h
    · split at h
      · simp at h
      · cases newExpr with
        | none =>
          simp only at h
          exact ih _ _ h x (record_touched_sub hx)
        | some e =>
          simp only at h
          split at h
          · simp at h
          · exact ih _ _ h x (record_touched_sub hx)
  | AttrStmt node key value body ih =>
    intro st st' h x hx
    simp only [varTouchWalk] at h
    exact ih _ _ h x hx
  | IfThenElse cond thenCase elseCase ih1 ih2 =>
    intro st st' h x hx
    simp only [varTouchWalk, Bind.bind, Except.bind] at h
    cases h1 : varTouchWalk st thenCase with
    | error e => rw [h1] at h; simp at h
    | ok st1 =>
      rw [h1] at h
      simp only at h
      exact ih2 _ _ h x (ih1 _ _ h1 x hx)
  | IfThen cond thenCase ih =>
    intro st st' h x hx
    simp only [varTouchWalk] at h
    exact ih _ _ h x hx
  | Block first rest ih1 ih2 =>
    intro st st' h x hx
    simp only [varTouchWalk, Bind.bind, Except.bind] at h
    cases h1 : varTouchWalk st first with
    | error e => rw [h1] at h; simp at h
    | ok st1 =>
      rw [h1] at h
      simp only at h
      exact ih2 _ _ h x (ih1 _ _ h1 x hx)
  | AssertStmt cond msg body ih =>
    intro st st' h x hx
    simp only [varTouchWalk] at h
    exact ih _ _ h x hx

/-- C9: `TouchedVar(stmt, v)` terminates and returns exactly the set of
variables reachable in the recorded `affect` graph from the
directly-touched seeds (the touched set after the statement walk, which
contains `v`); the result is the least such set and only grows the
seeds. -/
theorem c9_TouchedVar_least_closure (s : Stmt) (v : String) (st : TAState)
    (h : varTouchWalk ⟨[v], []⟩ s = .ok st) :
    ∃ res, TouchedVar s v = .ok res ∧
      (∀ x, x ∈ res ↔ Reaches st.affect st.touched x) ∧
      (∀ x ∈ st.touched, x ∈ res) ∧
      v ∈ res ∧
      (∀ (S : String → Prop), (∀ x ∈ st.touched, S x) →
        (∀ u r, S u → r ∈ succs st.affect u → S r) →
        ∀ x ∈ res, S x) := by
  have hsound : ∀ x ∈ closure st.affect st.touched st.touched,
      Reaches st.affect st.touched x :=
    closure_sound st.affect st.touched st.touched st.touched
      (fun y hy => .seed hy) (fun y hy => .seed hy)
  refine ⟨closure st.affect st.touched st.touched, ?_, ?_, ?_, ?_, ?_⟩
  · simp [TouchedVar, h, Bind.bind, Except.bind]
  · intro x
    constructor
    · exact fun hx => hsound x hx
    · exact fun hr => closure_complete st.affect st.touched x hr
  · exact fun x hx => closure_mono _ _ _ x hx
  · have hv : v ∈ st.touched :=
      varTouchWalk_touched_sub s ⟨[v], []⟩ st h v (by simp)
    exact closure_mono _ _ _ v hv
  · intro S hseed hstep x hx
    have hall : ∀ y, Reaches st.affect st.touched y → S y := by
      intro y hy
      induction hy with
      | seed h' => exact hseed _ h'
      | step hu hrr ih => exact hstep _ _ ih hrr
    exact hall x (hsound x hx)

/-- Witness for C9 at a concrete statement: a let whose value reads the
thread variable. -/
theorem c9_TouchedVar_least_closure_witness :
    ∃ res,
      TouchedVar
        (.LetStmt "x" i32 (.Variable "vt" i32) (.Evaluate (.IntImm i32 0)))
        "vt" = .ok res ∧
      (∀ x, x ∈ res ↔
        Reaches (TAState.mk ["vt", "x"] []).affect
          (TAState.mk ["vt", "x"] []).touched x) ∧
      (∀ x ∈ (TAState.mk ["vt", "x"] []).touched, x ∈ res) ∧
      "vt" ∈ res ∧
      (∀ (S : String → Prop),
        (∀ x ∈ (TAState.mk ["vt", "x"] []).touched, S x) →
        (∀ u r, S u → r ∈ succs (TAState.mk ["vt", "x"] []).affect u → S r) →
        ∀ x ∈ res, S x) := by
  apply c9_TouchedVar_least_closure
  simp [varTouchWalk, exprTouchedVisit, record, handleUseVar,
    Bind.bind, Except.bind]

/-! ## Virtual-thread injection (`VTInjector`, `VirtualThreadInjector`) -/

mutual

/-- `Substitute(e, var -> r)`: replace every occurrence of the variable
as an expression.  Buffer-variable fields and binder fields are `Var`
handles, not visited expressions, so they are not replaced. -/
def substExpr (v : String) (r : Expr) (e : Expr) : Expr :=
  match e with
  | .Variable n t => if n = v then r else .Variable n t
  | .IntImm t x => .IntImm t x
  | .StringImm s => .StringImm s
  | .Load t b i p => .Load t b (substExpr v r i) (substExpr v r p)
  | .Call t n args ct => .Call t n (substExprList v r args) ct
  | .Ramp b s l => .Ramp (substExpr v r b) (substExpr v r s) l
  | .Add a b => .Add (substExpr v r a) (substExpr v r b)
  | .Mul a b => .Mul (substExpr v r a) (substExpr v r b)
  | .Div a b => .Div (substExpr v r a) (substExpr v r b)
  | .GE a b => .GE (substExpr v r a) (substExpr v r b)
  | .LT a b => .LT (substExpr v r a) (substExpr v r b)
  | .And a b => .And (substExpr v r a) (substExpr v r b)
  | .Cast t a => .Cast t (substExpr v r a)
termination_by sizeOf e

def substExprList (v : String) (r : Expr) (l : List Expr) : List Expr :=
  match l with
  | [] => []
  | e :: rest => substExpr v r e :: substExprList v r rest
termination_by sizeOf l

end

/-- `Substitute(stmt, var -> r)` over statements. -/
def substStmt (v : String) (r : Expr) : Stmt → Stmt
  | .LetStmt x t value body => .LetStmt x t (substExpr v r value) (substStmt v r body)
  | .Store b value idx pred =>
      .Store b (substExpr v r value) (substExpr v r idx) (substExpr v r pred)
  | .For lv t mn ext ft dev body =>
      .For lv t (substExpr v r mn) (substExpr v r ext) ft dev (substStmt v r body)
  | .Evaluate value => .Evaluate (substExpr v r value)
  | .Allocate b t extents cond body newExpr =>
      .Allocate b t (substExprList v r extents) (substExpr v r cond)
        (substStmt v r body) (newExpr.map (substExpr v r))
  | .AttrStmt node key value body =>
      .AttrStmt node key (substExpr v r value) (substStmt v r body)
  | .IfThenElse c a b => .IfThenElse (substExpr v r c) (substStmt v r a) (substStmt v r b)
  | .IfThen c a => .IfThen (substExpr v r c) (substStmt v r a)
  | .Block a b => .Block (substStmt v r a) (substStmt v r b)
  | .AssertStmt c m body => .AssertStmt (substExpr v r c) (substExpr v r m) (substStmt v r body)

/-- Constructor arguments of `VTInjector`: the thread variable, the
thread count, the touched-variable set and the sharing mode. -/
structure VTCtx where
  varName : String
  varType : DataType
  numThreads : Int
  touchedVar : List String
  allowShare : Bool

/-- Mutable visitor state of `VTInjector`. -/
structure VTState where
  vtLoopInjected : Bool := false
  visitTouched : Bool := false
  triggerBase : Bool := false
  maxLoopDepth : Nat := 0
  allocRemap : List (String × Expr) := []
deriving Repr

/-- The thread variable as an expression. -/
def VTCtx.varExpr (cfg : VTCtx) : Expr := .Variable cfg.varName cfg.varType

/-- `VTInjector::RewriteIndex`: `index + var * alloc_extent`. -/
def RewriteIndex (cfg : VTCtx) (index allocExtent : Expr) : Expr :=
  .Add index (.Mul cfg.varExpr allocExtent)

mutual

/-- The expression mutator of `VTInjector` (its `VisitExpr_` overrides
for `Variable`, `Load` and `Call`, plus the default mutation of the
remaining nodes).  It reads `alloc_remap_` and the touched set and
threads the `visit_touched_var_` flag. -/
def vtVisitExpr (cfg : VTCtx) (remap : List (String × Expr)) (tf : Bool)
    (e : Expr) : Except String (Expr × Bool) :=
  match e with
  | .Variable n t =>
      if (lookupMap remap n).isSome then
        .error "Buffer address may get rewritten in virtual thread"
      else .ok (.Variable n t, tf || cfg.touchedVar.contains n)
  | .IntImm t v => .ok (.IntImm t v, tf)
  | .StringImm s => .ok (.StringImm s, tf)
  | .Load t buf idx pred => do
      let (idx', tf) ← vtVisitExpr cfg remap tf idx
      let (pred', tf) ← vtVisitExpr cfg remap tf pred
      let tf := tf || cfg.touchedVar.contains buf
      match lookupMap remap buf with
      | some stride => .ok (.Load t buf (RewriteIndex cfg idx' stride) pred', tf)
      | none => .ok (.Load t buf idx' pred', tf)
  | .Call t n args ct =>
      if n == "tvm_access_ptr" then
        match args with
        | [a0, a1, a2, a3, a4] =>
          match a1 with
          | .Variable bn bt =>
            match lookupMap remap bn with
            | none => do
                let (args', tf) ← vtVisitExprList cfg remap tf [a0, .Variable bn bt, a2, a3, a4]
                .ok (.Call t n args' ct, tf)
            | some strideB => do
                let tf := true
                let (offset, tf) ← vtVisitExpr cfg remap tf a2
                let (extent, tf) ← vtVisitExpr cfg remap tf a3
                let stride :=
                  Expr.Div strideB (makeConst offset.dtypeOf (a0.dtypeOf.lanes : Int))
                let offset := Expr.Add (.Mul stride cfg.varExpr) offset
                .ok (.Call t n [a0, a1, offset, extent, a4] ct, tf)
          | a1o => do
              let (args', tf) ← vtVisitExprList cfg remap tf [a0, a1o, a2, a3, a4]
              .ok (.Call t n args' ct, tf)
        | _ => .error "CHECK_EQ access_ptr args size 5"
      else if n == "tvm_context_id" then
        if cfg.allowShare then .ok (.Call t n args ct, tf)
        else .ok (cfg.varExpr, tf)
      else do
        let (args', tf) ← vtVisitExprList cfg remap tf args
        .ok (.Call t n args' ct, tf)
  | .Ramp b s l => do
      let (b', tf) ← vtVisitExpr cfg remap tf b
      let (s', tf) ← vtVisitExpr cfg remap tf s
      .ok (.Ramp b' s' l, tf)
  | .Add a b => do
      let (a', tf) ← vtVisitExpr cfg remap tf a
      let (b', tf) ← vtVisitExpr cfg remap tf b
      .ok (.Add a' b', tf)
  | .Mul a b => do
      let (a', tf) ← vtVisitExpr cfg remap tf a
      let (b', tf) ← vtVisitExpr cfg remap tf b
      .ok (.Mul a' b', tf)
  | .Div a b => do
      let (a', tf) ← vtVisitExpr cfg remap tf a
      let (b', tf) ← vtVisitExpr cfg remap tf b
      .ok (.Div a' b', tf)
  | .GE a b => do
      let (a', tf) ← vtVisitExpr cfg remap tf a
      let (b', tf) ← vtVisitExpr cfg remap tf b
      .ok (.GE a' b', tf)
  | .LT a b => do
      let (a', tf) ← vtVisitExpr cfg remap tf a
      let (b', tf) ← vtVisitExpr cfg remap tf b
      .ok (.LT a' b', tf)
  | .And a b => do
      let (a', tf) ← vtVisitExpr cfg remap tf a
      let (b', tf) ← vtVisitExpr cfg remap tf b
      .ok (.And a' b', tf)
  | .Cast t a => do
      let (a', tf) ← vtVisitExpr cfg remap tf a
      .ok (.Cast t a', tf)
termination_by sizeOf e

def vtVisitExprList (cfg : VTCtx) (remap : List (String × Expr)) (tf : Bool)
    (l : List Expr) : Except String (List Expr × Bool) :=
  match l with
  | [] => .ok ([], tf)
  | e :: rest => do
      let (e', tf) ← vtVisitExpr cfg remap tf e
      let (rest', tf) ← vtVisitExprList cfg remap tf rest
      .ok (e' :: rest', tf)
termination_by sizeOf l

end

/-- `arith::ComputeReduce<Mul>(values, Expr())`: left fold of `Mul`
over a non-empty array (empty array trips the `CHECK` since no empty
value is supplied). -/
def computeReduceMul : List Expr → Except String Expr
  | [] => .error "CHECK ComputeReduce empty array"
  | e :: rest => .ok (rest.foldl Expr.Mul e)

/-- The unrolled branch of `InjectVTLoop`: substitute the thread
variable by `0, 1, ..., num_threads-1` and chain the results with
`Block` nodes, accumulating on the left exactly as the C++ loop does
(`blk = Block(blk, sub(i))`). -/
def unrollLoop (cfg : VTCtx) (stmt : Stmt) : Stmt :=
  (List.range (cfg.numThreads - 1).toNat).foldl
    (fun blk (k : Nat) =>
      .Block blk (substStmt cfg.varName
        (makeConst cfg.varType ((k : Int) + 1)) stmt))
    (substStmt cfg.varName (makeZero cfg.varType) stmt)

/-- The tail of `InjectVTLoop` after the flags are reset: choose the
unrolled block sequence when `max_loop_depth_ == 0 && num_threads_ <
16`, otherwise emit the serial `For` over a variable named
`<var>.s`. -/
def emitLoop (cfg : VTCtx) (depth : Nat) (stmt : Stmt) : Stmt :=
  if depth == 0 && cfg.numThreads < 16 then unrollLoop cfg stmt
  else
    let idxName := cfg.varName ++ ".s"
    let stmt := substStmt cfg.varName (.Variable idxName cfg.varType) stmt
    .For idxName cfg.varType (makeZero cfg.varType)
      (makeConst cfg.varType cfg.numThreads) 0 0 stmt

/-- `InjectVTLoop(stmt, false)`: called from the `VisitStmt` wrapper on
the already-mutated statement; checks the injection flag, resets the
trigger flags and emits the loop without re-running the mutator. -/
def vtInjectPost (cfg : VTCtx) (st : VTState) (stmt : Stmt) :
    Except String (Stmt × VTState) :=
  if st.vtLoopInjected then .error "CHECK !vt_loop_injected"
  else
    let st := { st with visitTouched := false, triggerBase := false,
                        vtLoopInjected := false }
    .ok (emitLoop cfg st.maxLoopDepth stmt, st)

/-- `VTInjector::VisitStmt_(const Store*)`: mutate the children, set
the touched flag if the buffer is touched, set the base trigger when
sharing is disallowed, and rewrite the index through `RewriteIndex`
when the buffer is remapped. -/
def vtVisitStore (cfg : VTCtx) (st : VTState) (buf : String)
    (value idx pred : Expr) : Except String (Stmt × VTState) := do
  let (value', tf) ← vtVisitExpr cfg st.allocRemap st.visitTouched value
  let (idx', tf) ← vtVisitExpr cfg st.allocRemap tf idx
  let (pred', tf) ← vtVisitExpr cfg st.allocRemap tf pred
  let tf := tf || cfg.touchedVar.contains buf
  let st1 := { st with visitTouched := tf, triggerBase := !cfg.allowShare }
  match lookupMap st1.allocRemap buf with
  | some stride =>
      .ok (.Store buf value' (RewriteIndex cfg idx' stride) pred', st1)
  | none => .ok (.Store buf value' idx' pred', st1)

/-- `VTInjector::VisitStmt_(const Evaluate*)`: set the base trigger
when sharing is disallowed, then mutate the value. -/
def vtStmtEvaluate (cfg : VTCtx) (st : VTState) (value : Expr) :
    Except String (Stmt × VTState) := do
  let st1 := { st with triggerBase := !cfg.allowShare }
  let (value', tf) ← vtVisitExpr cfg st1.allocRemap st1.visitTouched value
  .ok (.Evaluate value', { st1 with visitTouched := tf })

/-- Termination weight of the injection flag: `1` while no vthread
loop has been injected yet.  The re-entrant `InjectVTLoop(s, true)`
call revisits the same statement with the flag set, so the weight
drops from `1` to `0` there. -/
def vtBit (st : VTState) : Nat := if st.vtLoopInjected then 0 else 1

theorem vtBit_zero {st : VTState} (h : st.vtLoopInjected = true) :
    vtBit st = 0 := by simp [vtBit, h]


theorem vtBit_one {st : VTState} (h : st.vtLoopInjected = false) :
    vtBit st = 1 := by simp [vtBit, h]


/-- A strict decrease of the statement size decreases the measure
`2 * sizeOf s + vtBit st` no matter how the injection flag moved. -/
theorem vtMeasure_child {st st2 : VTState} {a b : Nat} (hs : a < b) :
    2 * a + vtBit st2 < 2 * b + vtBit st := by
  have h1 : vtBit st2 ≤ 1 := by unfold vtBit; split <;> omega
  omega


/-- `VTInjector::VisitStmt_(const LetStmt*)`, parameterized by the
recursive statement visitor `visit` and by `InjectVTLoop` on this node
(`inject`). -/
def vtStmtLetAux (cfg : VTCtx) (st : VTState) (v : String) (t : DataType)
    (value : Expr) (body : Stmt)
    (visit : (st2 : VTState) → (t2 : Stmt) →
      sizeOf t2 < sizeOf (Stmt.LetStmt v t value body) →
      Except String (Stmt × VTState))
    (inject : (st2 : VTState) → st.vtLoopInjected = false →
      Except String (Stmt × VTState)) :
    Except String (Stmt × VTState) := do
  let (value', tf) ← vtVisitExpr cfg st.allocRemap st.visitTouched value
  let st1 := { st with visitTouched := tf }
  if h : (st1.visitTouched && !st1.vtLoopInjected) = true then
    inject st1 (by
      simp only [Bool.and_eq_true, Bool.not_eq_true'] at h
      exact h.2)
  else do
    let st2 := { st1 with visitTouched := false }
    let (body', st3) ← visit st2 body
      (by simp only [Stmt.LetStmt.sizeOf_spec]; omega)
    .ok (.LetStmt v t value' body', st3)

/-- `VTInjector::VisitStmt_(const For*)`: the `min` must be zero;
visit the extent, inject on a touched extent (bumping the loop depth
afterwards), otherwise mutate the body and bump the loop depth. -/
def vtStmtForAux (cfg : VTCtx) (st : VTState) (lv : String) (t : DataType)
    (mn ext : Expr) (ft dev : Nat) (body : Stmt)
    (visit : (st2 : VTState) → (t2 : Stmt) →
      sizeOf t2 < sizeOf (Stmt.For lv t mn ext ft dev body) →
      Except String (Stmt × VTState))
    (inject : (st2 : VTState) → st.vtLoopInjected = false →
      Except String (Stmt × VTState)) :
    Except String (Stmt × VTState) :=
  if isZero mn = false then .error "CHECK is_zero(op->min)"
  else do
    let (ext', tf) ← vtVisitExpr cfg st.allocRemap st.visitTouched ext
    let st1 := { st with visitTouched := tf }
    if h : (st1.visitTouched && !st1.vtLoopInjected) = true then do
      let (r, st2) ← inject st1 (by
        simp only [Bool.and_eq_true, Bool.not_eq_true'] at h
        exact h.2)
      .ok (r, { st2 with maxLoopDepth := st2.maxLoopDepth + 1 })
    else do
      let st2 := { st1 with visitTouched := false }
      let (body', st3) ← visit st2 body
        (by simp only [Stmt.For.sizeOf_spec]; omega)
      let st4 := { st3 with maxLoopDepth := st3.maxLoopDepth + 1 }
      .ok (.For lv t mn ext' ft dev body', st4)

/-- `VTInjector::VisitStmt_(const AttrStmt*)`: visit the value; inject
on a touched value, or on a co-processor scope when sharing is
disallowed; otherwise recurse into the body. -/
def vtStmtAttrAux (cfg : VTCtx) (st : VTState) (node : AttrNode)
    (key : String) (value : Expr) (body : Stmt)
    (visit : (st2 : VTState) → (t2 : Stmt) →
      sizeOf t2 < sizeOf (Stmt.AttrStmt node key value body) →
      Except String (Stmt × VTState))
    (inject : (st2 : VTState) → st.vtLoopInjected = false →
      Except String (Stmt × VTState)) :
    Except String (Stmt × VTState) := do
  let (value', tf) ← vtVisitExpr cfg st.allocRemap st.visitTouched value
  let st1 := { st with visitTouched := tf }
  if h : (st1.visitTouched && !st1.vtLoopInjected) = true then
    inject st1 (by
      simp only [Bool.and_eq_true, Bool.not_eq_true'] at h
      exact h.2)
  else if h2 : (!cfg.allowShare && !st1.vtLoopInjected &&
      (key == "coproc_uop_scope" || key == "coproc_scope")) = true then
    inject st1 (by
      simp only [Bool.and_eq_true, Bool.not_eq_true'] at h2
      exact h2.1.2)
  else do
    let (body', st2) ← visit st1 body
      (by simp only [Stmt.AttrStmt.sizeOf_spec]; omega)
    .ok (.AttrStmt node key value' body', st2)

/-- `VTInjector::VisitStmt_(const IfThenElse*)` with a defined
else-branch: visit the condition, inject if touched; otherwise require
`max_loop_depth == 0`, visit then-branch, visit else-branch under a
zeroed depth counter and combine with `max`. -/
def vtStmtIfThenElseAux (cfg : VTCtx) (st : VTState) (cond : Expr)
    (thenCase elseCase : Stmt)
    (visit : (st2 : VTState) → (t2 : Stmt) →
      sizeOf t2 < sizeOf (Stmt.IfThenElse cond thenCase elseCase) →
      Except String (Stmt × VTState))
    (inject : (st2 : VTState) → st.vtLoopInjected = false →
      Except String (Stmt × VTState)) :
    Except String (Stmt × VTState) := do
  let (cond', tf) ← vtVisitExpr cfg st.allocRemap st.visitTouched cond
  let st1 := { st with visitTouched := tf }
  if h : (st1.visitTouched && !st1.vtLoopInjected) = true then
    inject st1 (by
      simp only [Bool.and_eq_true, Bool.not_eq_true'] at h
      exact h.2)
  else do
    let st2 := { st1 with visitTouched := false }
    if st2.maxLoopDepth ≠ 0 then .error "CHECK_EQ max_loop_depth 0"
    else do
      let (then', st3) ← visit st2 thenCase
        (by simp only [Stmt.IfThenElse.sizeOf_spec]; omega)
      let temp := st3.maxLoopDepth
      let st4 := { st3 with maxLoopDepth := 0 }
      let (else', st5) ← visit st4 elseCase
        (by simp only [Stmt.IfThenElse.sizeOf_spec]; omega)
      let st6 := { st5 with maxLoopDepth := max temp st5.maxLoopDepth }
      .ok (.IfThenElse cond' then' else', st6)

/-- `VTInjector::VisitStmt_(const IfThenElse*)` with a null
else-branch. -/
def vtStmtIfThenAux (cfg : VTCtx) (st : VTState) (cond : Expr)
    (thenCase : Stmt)
    (visit : (st2 : VTState) → (t2 : Stmt) →
      sizeOf t2 < sizeOf (Stmt.IfThen cond thenCase) →
      Except String (Stmt × VTState))
    (inject : (st2 : VTState) → st.vtLoopInjected = false →
      Except String (Stmt × VTState)) :
    Except String (Stmt × VTState) := do
  let (cond', tf) ← vtVisitExpr cfg st.allocRemap st.visitTouched cond
  let st1 := { st with visitTouched := tf }
  if h : (st1.visitTouched && !st1.vtLoopInjected) = true then
    inject st1 (by
      simp only [Bool.and_eq_true, Bool.not_eq_true'] at h
      exact h.2)
  else do
    let st2 := { st1 with visitTouched := false }
    if st2.maxLoopDepth ≠ 0 then .error "CHECK_EQ max_loop_depth 0"
    else do
      let (then', st3) ← visit st2 thenCase
        (by simp only [Stmt.IfThen.sizeOf_spec]; omega)
      .ok (.IfThen cond' then', st3)

/-- `VTInjector::VisitStmt_(const Block*)`: require
`max_loop_depth == 0` on entry, visit `first`, then visit `rest` under
a zeroed depth counter and combine with `max`. -/
def vtStmtBlockAux (cfg : VTCtx) (st : VTState) (first rest : Stmt)
    (visit : (st2 : VTState) → (t2 : Stmt) →
      sizeOf t2 < sizeOf (Stmt.Block first rest) →
      Except String (Stmt × VTState)) :
    Except String (Stmt × VTState) :=
  if st.maxLoopDepth ≠ 0 then .error "CHECK_EQ max_loop_depth 0"
  else do
    let (first', st1) ← visit st first
      (by simp only [Stmt.Block.sizeOf_spec]; omega)
    let temp := st1.maxLoopDepth
    let st2 := { st1 with maxLoopDepth := 0 }
    let (rest', st3) ← visit st2 rest
      (by simp only [Stmt.Block.sizeOf_spec]; omega)
    let st4 := { st3 with maxLoopDepth := max st3.maxLoopDepth temp }
    .ok (.Block first' rest', st4)

/-- Default mutation of `AssertStmt` (no `VTInjector` override). -/
def vtStmtAssertAux (cfg : VTCtx) (st : VTState) (cond msg : Expr)
    (body : Stmt)
    (visit : (st2 : VTState) → (t2 : Stmt) →
      sizeOf t2 < sizeOf (Stmt.AssertStmt cond msg body) →
      Except String (Stmt × VTState)) :
    Except String (Stmt × VTState) := do
  let (cond', tf) ← vtVisitExpr cfg st.allocRemap st.visitTouched cond
  let (msg', tf) ← vtVisitExpr cfg st.allocRemap tf msg
  let st1 := { st with visitTouched := tf }
  let (body', st2) ← visit st1 body
    (by simp only [Stmt.AssertStmt.sizeOf_spec]; omega)
  .ok (.AssertStmt cond' msg' body', st2)

/-- The extent-visiting loop of `VTInjector::VisitStmt_(Allocate)` and
the remainder of that handler: visit each extent (injecting on the
original node as soon as one turns out touched), then clear the flag,
rewrite the allocation when its buffer is touched or sharing is
disallowed, and mutate the body. -/
def vtVisitExtentsAux (cfg : VTCtx) (st : VTState) (orig : Stmt)
    (cond' : Expr) (acc rem : List Expr)
    (visit : (st2 : VTState) → (t2 : Stmt) → sizeOf t2 < sizeOf orig →
      Except String (Stmt × VTState))
    (inject : (st2 : VTState) → st.vtLoopInjected = false →
      Except String (Stmt × VTState)) :
    Except String (Stmt × VTState) :=
  match horig : orig with
  | .Allocate buf t extents c0 body newExpr =>
    match rem with
    | e :: rest => do
        let (e', tf) ← vtVisitExpr cfg st.allocRemap st.visitTouched e
        let st1 := { st with visitTouched := tf }
        if h : (st1.visitTouched && !st1.vtLoopInjected) = true then
          inject st1 (by
            simp only [Bool.and_eq_true, Bool.not_eq_true'] at h
            exact h.2)
        else
          vtVisitExtentsAux cfg st1 (.Allocate buf t extents c0 body newExpr)
            cond' (acc ++ [e']) rest visit inject
    | [] => do
        let st1 := { st with visitTouched := false }
        if cfg.touchedVar.contains buf || !cfg.allowShare then do
          let prod ← computeReduceMul extents
          let stride := Expr.Mul prod (makeConst prod.dtypeOf (t.lanes : Int))
          match extents with
          | [] => .error "CHECK ComputeReduce empty array"
          | e0 :: _ => do
            let st2 := { st1 with allocRemap := setMap st1.allocRemap buf stride }
            let (body', st3) ← visit st2 body
              (by simp only [Stmt.Allocate.sizeOf_spec]; omega)
            .ok (.Allocate buf t
              (makeConst e0.dtypeOf cfg.numThreads :: acc) cond' body' newExpr,
              st3)
        else do
          let (body', st2) ← visit st1 body
            (by simp only [Stmt.Allocate.sizeOf_spec]; omega)
          .ok (.Allocate buf t acc cond' body' newExpr, st2)
  | _ => .error "internal: vtVisitExtents on non-Allocate"

/-- `VTInjector::VisitStmt_(const Allocate*)`: inject immediately on a
defined `new_expr`; visit the condition and inject if touched; then
hand over to the extent loop. -/
def vtStmtAllocateAux (cfg : VTCtx) (st : VTState) (buf : String)
    (t : DataType) (extents : List Expr) (cond : Expr) (body : Stmt)
    (ne : Option Expr)
    (visit : (st2 : VTState) → (t2 : Stmt) →
      sizeOf t2 < sizeOf (Stmt.Allocate buf t extents cond body ne) →
      Except String (Stmt × VTState))
    (inject : (st2 : VTState) → st.vtLoopInjected = false →
      Except String (Stmt × VTState)) :
    Except String (Stmt × VTState) :=
  if h : (ne.isSome && !st.vtLoopInjected) = true then
    inject st (by
      simp only [Bool.and_eq_true, Bool.not_eq_true'] at h
      exact h.2)
  else do
    let (cond', tf) ← vtVisitExpr cfg st.allocRemap st.visitTouched cond
    let st1 := { st with visitTouched := tf }
    if h2 : (st1.visitTouched && !st1.vtLoopInjected) = true then
      inject st1 (by
        simp only [Bool.and_eq_true, Bool.not_eq_true'] at h2
        exact h2.2)
    else
      vtVisitExtentsAux cfg st1 (.Allocate buf t extents cond body ne)
        cond' [] extents visit inject

/-- `InjectVTLoop(stmt, true)`: assert no loop is injected yet, reset
the flags, re-run the mutator over the untouched statement with the
injection flag set, then reset the flags and emit the loop.  The
re-entrant mutator call is the `visit` parameter. -/
def vtInjectPreAux (cfg : VTCtx) (st : VTState) (s : Stmt)
    (visit : (st2 : VTState) → st2.vtLoopInjected = true →
      Except String (Stmt × VTState)) :
    Except String (Stmt × VTState) :=
  if st.vtLoopInjected then .error "CHECK !vt_loop_injected"
  else do
    let st1 : VTState := { st with visitTouched := false, triggerBase := false,
                                   vtLoopInjected := true }
    let (s', st2) ← visit st1 rfl
    let st3 := { st2 with vtLoopInjected := false, visitTouched := false }
    .ok (emitLoop cfg st3.maxLoopDepth s', st3)

/-- `VTInjector::VisitStmt`: assert the touched flag is clear, dispatch
to the per-node handler, then inject the vthread loop around the
mutated statement if a touched dependency or base trigger surfaced and
no loop has been injected yet. -/
def vtVisitStmt (cfg : VTCtx) (st : VTState) (s : Stmt) :
    Except String (Stmt × VTState) :=
  if st.visitTouched then .error "CHECK !visit_touched_var"
  else do
    let (s', st') ←
      match s with
      | .LetStmt v t value body =>
          vtStmtLetAux cfg st v t value body
            (fun st2 t2 hsz => vtVisitStmt cfg st2 t2)
            (fun st2 hflag =>
              vtInjectPreAux cfg st2 (.LetStmt v t value body)
                (fun st3 h3 =>
                  vtVisitStmt cfg st3 (.LetStmt v t value body)))
      | .Store buf value idx pred => vtVisitStore cfg st buf value idx pred
      | .For lv t mn ext ft dev body =>
          vtStmtForAux cfg st lv t mn ext ft dev body
            (fun st2 t2 hsz => vtVisitStmt cfg st2 t2)
            (fun st2 hflag =>
              vtInjectPreAux cfg st2 (.For lv t mn ext ft dev body)
                (fun st3 h3 =>
                  vtVisitStmt cfg st3 (.For lv t mn ext ft dev body)))
      | .Evaluate value => vtStmtEvaluate cfg st value
      | .Allocate buf t extents cond body ne =>
          vtStmtAllocateAux cfg st buf t extents cond body ne
            (fun st2 t2 hsz => vtVisitStmt cfg st2 t2)
            (fun st2 hflag =>
              vtInjectPreAux cfg st2 (.Allocate buf t extents cond body ne)
                (fun st3 h3 =>
                  vtVisitStmt cfg st3 (.Allocate buf t extents cond body ne)))
      | .AttrStmt node key value body =>
          vtStmtAttrAux cfg st node key value body
            (fun st2 t2 hsz => vtVisitStmt cfg st2 t2)
            (fun st2 hflag =>
              vtInjectPreAux cfg st2 (.AttrStmt node key value body)
                (fun st3 h3 =>
                  vtVisitStmt cfg st3 (.AttrStmt node key value body)))
      | .IfThenElse c a b =>
          vtStmtIfThenElseAux cfg st c a b
            (fun st2 t2 hsz => vtVisitStmt cfg st2 t2)
            (fun st2 hflag =>
              vtInjectPreAux cfg st2 (.IfThenElse c a b)
                (fun st3 h3 => vtVisitStmt cfg st3 (.IfThenElse c a b)))
      | .IfThen c a =>
          vtStmtIfThenAux cfg st c a
            (fun st2 t2 hsz => vtVisitStmt cfg st2 t2)
            (fun st2 hflag =>
              vtInjectPreAux cfg st2 (.IfThen c a)
                (fun st3 h3 => vtVisitStmt cfg st3 (.IfThen c a)))
      | .Block a b =>
          vtStmtBlockAux cfg st a b
            (fun st2 t2 hsz => vtVisitStmt cfg st2 t2)
      | .AssertStmt c m body =>
          vtStmtAssertAux cfg st c m body
            (fun st2 t2 hsz => vtVisitStmt cfg st2 t2)
    if st'.visitTouched || st'.triggerBase then
      if !st'.vtLoopInjected then vtInjectPost cfg st' s'
      else .ok (s', { st' with visitTouched := false, triggerBase := false })
    else .ok (s', st')
termination_by 2 * sizeOf s + vtBit st
decreasing_by
  all_goals simp_wf
  all_goals
    first
      | exact vtMeasure_child hsz
      | (rw [vtBit_zero h3, vtBit_one hflag]; omega)

/-- `InjectVTLoop(stmt, true)` with the mutator itself as the
re-entrant visitor. -/
def vtInjectPre (cfg : VTCtx) (st : VTState) (s : Stmt) :
    Except String (Stmt × VTState) :=
  vtInjectPreAux cfg st s (fun st2 h3 => vtVisitStmt cfg st2 s)

/-- `VTInjector::VisitStmt_(const LetStmt*)` tied to the mutator. -/
def vtStmtLet (cfg : VTCtx) (st : VTState) (v : String) (t : DataType)
    (value : Expr) (body : Stmt) : Except String (Stmt × VTState) :=
  vtStmtLetAux cfg st v t value body
    (fun st2 t2 hsz => vtVisitStmt cfg st2 t2)
    (fun st2 hflag => vtInjectPre cfg st2 (.LetStmt v t value body))

/-- `VTInjector::VisitStmt_(const For*)` tied to the mutator. -/
def vtStmtFor (cfg : VTCtx) (st : VTState) (lv : String) (t : DataType)
    (mn ext : Expr) (ft dev : Nat) (body : Stmt) :
    Except String (Stmt × VTState) :=
  vtStmtForAux cfg st lv t mn ext ft dev body
    (fun st2 t2 hsz => vtVisitStmt cfg st2 t2)
    (fun st2 hflag => vtInjectPre cfg st2 (.For lv t mn ext ft dev body))

/-- `VTInjector::VisitStmt_(const AttrStmt*)` tied to the mutator. -/
def vtStmtAttr (cfg : VTCtx) (st : VTState) (node : AttrNode) (key : String)
    (value : Expr) (body : Stmt) : Except String (Stmt × VTState) :=
  vtStmtAttrAux cfg st node key value body
    (fun st2 t2 hsz => vtVisitStmt cfg st2 t2)
    (fun st2 hflag => vtInjectPre cfg st2 (.AttrStmt node key value body))

/-- `VTInjector::VisitStmt_(const IfThenElse*)` (defined else branch)
tied to the mutator. -/
def vtStmtIfThenElse (cfg : VTCtx) (st : VTState) (cond : Expr)
    (thenCase elseCase : Stmt) : Except String (Stmt × VTState) :=
  vtStmtIfThenElseAux cfg st cond thenCase elseCase
    (fun st2 t2 hsz => vtVisitStmt cfg st2 t2)
    (fun st2 hflag => vtInjectPre cfg st2 (.IfThenElse cond thenCase elseCase))

/-- `VTInjector::VisitStmt_(const IfThenElse*)` (null else branch)
tied to the mutator. -/
def vtStmtIfThen (cfg : VTCtx) (st : VTState) (cond : Expr)
    (thenCase : Stmt) : Except String (Stmt × VTState) :=
  vtStmtIfThenAux cfg st cond thenCase
    (fun st2 t2 hsz => vtVisitStmt cfg st2 t2)
    (fun st2 hflag => vtInjectPre cfg st2 (.IfThen cond thenCase))

/-- `VTInjector::VisitStmt_(const Block*)` tied to the mutator. -/
def vtStmtBlock (cfg : VTCtx) (st : VTState) (first rest : Stmt) :
    Except String (Stmt × VTState) :=
  vtStmtBlockAux cfg st first rest
    (fun st2 t2 hsz => vtVisitStmt cfg st2 t2)

/-- Default mutation of `AssertStmt` tied to the mutator. -/
def vtStmtAssert (cfg : VTCtx) (st : VTState) (cond msg : Expr)
    (body : Stmt) : Except String (Stmt × VTState) :=
  vtStmtAssertAux cfg st cond msg body
    (fun st2 t2 hsz => vtVisitStmt cfg st2 t2)

/-- The extent loop of the `Allocate` handler tied to the mutator. -/
def vtVisitExtents (cfg : VTCtx) (st : VTState) (orig : Stmt) (cond' : Expr)
    (acc rem : List Expr) : Except String (Stmt × VTState) :=
  vtVisitExtentsAux cfg st orig cond' acc rem
    (fun st2 t2 hsz => vtVisitStmt cfg st2 t2)
    (fun st2 hflag => vtInjectPre cfg st2 orig)

/-- `VTInjector::VisitStmt_(const Allocate*)` tied to the mutator. -/
def vtStmtAllocate (cfg : VTCtx) (st : VTState) (buf : String)
    (t : DataType) (extents : List Expr) (cond : Expr) (body : Stmt)
    (ne : Option Expr) : Except String (Stmt × VTState) :=
  vtStmtAllocateAux cfg st buf t extents cond body ne
    (fun st2 t2 hsz => vtVisitStmt cfg st2 t2)
    (fun st2 hflag =>
      vtInjectPre cfg st2 (.Allocate buf t extents cond body ne))

/-- `VirtualThreadInjector`: a `StmtMutator` (statements only; it does
not mutate expressions).  After mutating children it replaces every
`virtual_thread` attribute node: the annotation node is downcast to an
`IterVar`, the thread count read from the integer-immediate value,
sharing allowed exactly when the thread tag is the literal "vthread",
and the body is rewritten by a fresh `VTInjector` driven by
`TouchedVar(body, iv->var)`. -/
def VirtualThreadInjector : Stmt → Except String Stmt
  | .LetStmt v t value body => do
      .ok (.LetStmt v t value (← VirtualThreadInjector body))
  | .Store buf value idx pred => .ok (.Store buf value idx pred)
  | .For lv t mn ext ft dev body => do
      .ok (.For lv t mn ext ft dev (← VirtualThreadInjector body))
  | .Evaluate value => .ok (.Evaluate value)
  | .Allocate buf t extents cond body newExpr => do
      .ok (.Allocate buf t extents cond (← VirtualThreadInjector body) newExpr)
  | .AttrStmt node key value body => do
      let body' ← VirtualThreadInjector body
      if key == "virtual_thread" then
        match node with
        | .iterVar vn vt tag =>
          match value with
          | .IntImm _ nthread => do
              let allowShare := tag == "vthread"
              let touched ← TouchedVar body' vn
              let cfg : VTCtx := ⟨vn, vt, nthread, touched, allowShare⟩
              let (r, _) ← vtVisitStmt cfg {} body'
              .ok r
          | _ => .error "virtual_thread value is not an IntImm"
        | _ => .error "Downcast to IterVar failed"
      else .ok (.AttrStmt node key value body')
  | .IfThenElse c a b => do
      .ok (.IfThenElse c (← VirtualThreadInjector a) (← VirtualThreadInjector b))
  | .IfThen c a => do
      .ok (.IfThen c (← VirtualThreadInjector a))
  | .Block a b => do
      .ok (.Block (← VirtualThreadInjector a) (← VirtualThreadInjector b))
  | .AssertStmt c m body => do
      .ok (.AssertStmt c m (← VirtualThreadInjector body))

/-- `InjectVirtualThread` without the trailing `ConvertSSA` step (SSA
conversion is an external collaborator outside this file's scope). -/
def InjectVirtualThreadPreSSA (s : Stmt) : Except String Stmt :=
  VirtualThreadInjector s

/-! ## Bounds-checker instrumentation (`BoundCollector`, `BoundChecker`) -/

/-- `BoundCollector`: a pre-order statement walk that stores
`mem_to_shape[node] = value` for every `buffer_bound` attribute whose
node is a variable, then recurses into sub-statements. -/
def boundCollect (m : List (String × Expr)) : Stmt → List (String × Expr)
  | .AttrStmt node key value body =>
      let m := if key == "buffer_bound" then
                 match node with
                 | .varNode n _ => setMap m n value
                 | _ => m
               else m
      boundCollect m body
  | .LetStmt _ _ _ body => boundCollect m body
  | .Store _ _ _ _ => m
  | .For _ _ _ _ _ _ body => boundCollect m body
  | .Evaluate _ => m
  | .Allocate _ _ _ _ body _ => boundCollect m body
  | .IfThenElse _ a b => boundCollect (boundCollect m a) b
  | .IfThen _ a => boundCollect m a
  | .Block a b => boundCollect (boundCollect m a) b
  | .AssertStmt _ _ body => boundCollect m body

/-- Scratch state of `BoundChecker` apart from the shape table: the
`process_store_` and `unsafe_rewritten_` flags and the per-store
collector.  The expression visitor never writes the shape table, so the
table is passed to it read-only. -/
structure BCScratch where
  processStore : Bool := false
  unsafeRewritten : Bool := false
  collector : List (Expr × Expr) := []
deriving Repr

/-- `BoundChecker::IndexIsValid`: a defined scalar, or a `Ramp` with
scalar base and stride and positive lane count.  (In this embedding an
`Expr` field is always defined.) -/
def IndexIsValid (index : Expr) : Bool :=
  match index with
  | .Ramp base stride lanes =>
      base.dtypeOf.isScalar && stride.dtypeOf.isScalar && decide (0 < lanes)
  | _ => true

/-- `BoundChecker::CanInstrument` -/
def CanInstrument (mem : List (String × Expr)) (unsafeRewritten : Bool)
    (index : Expr) (buf : String) : Bool :=
  (lookupMap mem buf).isSome && IndexIsValid index && !unsafeRewritten

/-- `BoundChecker::Collect`: push `(index, mem_to_shape[buf])`.  The
`getD` default stands for the map `operator[]`; every caller has just
checked that the entry exists. -/
def bcCollect (mem : List (String × Expr)) (sc : BCScratch) (index : Expr)
    (buf : String) : BCScratch :=
  { sc with collector :=
      sc.collector ++ [(index, (lookupMap mem buf).getD (.StringImm ""))] }

mutual

/-- The expression visitor of `BoundChecker` (`VisitExpr_` for `Load`
and `Call`, default recursion elsewhere).  The mutator returns every
expression unchanged, so only the scratch state is threaded. -/
def bcCollectExpr (mem : List (String × Expr)) (sc : BCScratch) (e : Expr) :
    BCScratch :=
  match e with
  | .Variable _ _ => sc
  | .IntImm _ _ => sc
  | .StringImm _ => sc
  | .Load _ buf idx pred =>
      let sc := if CanInstrument mem sc.unsafeRewritten idx buf then
                  bcCollect mem sc idx buf
                else sc
      bcCollectExpr mem (bcCollectExpr mem sc idx) pred
  | .Call _ n args _ =>
      let sc := if sc.processStore && n == "tvm_if_then_else" then
                  { sc with unsafeRewritten := true }
                else sc
      bcCollectExprList mem sc args
  | .Ramp b s _ => bcCollectExpr mem (bcCollectExpr mem sc b) s
  | .Add a b => bcCollectExpr mem (bcCollectExpr mem sc a) b
  | .Mul a b => bcCollectExpr mem (bcCollectExpr mem sc a) b
  | .Div a b => bcCollectExpr mem (bcCollectExpr mem sc a) b
  | .GE a b => bcCollectExpr mem (bcCollectExpr mem sc a) b
  | .LT a b => bcCollectExpr mem (bcCollectExpr mem sc a) b
  | .And a b => bcCollectExpr mem (bcCollectExpr mem sc a) b
  | .Cast _ a => bcCollectExpr mem sc a
termination_by sizeOf e

def bcCollectExprList (mem : List (String × Expr)) (sc : BCScratch)
    (l : List Expr) : BCScratch :=
  match l with
  | [] => sc
  | e :: rest => bcCollectExprList mem (bcCollectExpr mem sc e) rest
termination_by sizeOf l

end

/-- One conjunct of `BoundChecker::MakeCondition`: take the maximum
lane of a `Ramp` index, simplify index and bound, cast both to signed
64-bit, and form `index >= 0 && index < upper_bound`. -/
def condFor (simplify : Expr → Expr) (p : Expr × Expr) : Expr :=
  let index :=
    match p.1 with
    | .Ramp base stride lanes =>
        Expr.Add base (.Mul stride (makeConst stride.dtypeOf ((lanes : Int) - 1)))
    | i => i
  let index := Expr.Cast i64 (simplify index)
  let ub := Expr.Cast i64 (simplify p.2)
  Expr.And (.GE index (makeZero i64)) (.LT index ub)

/-- `BoundChecker::MakeCondition`: left-fold conjunction of the
per-pair conditions (`condition = !i ? current : And(condition,
current)`).  On the empty collector the C++ code returns the
default-constructed null expression; the caller guards against that
case, modelled here by an empty string immediate. -/
def MakeCondition (simplify : Expr → Expr) (pairs : List (Expr × Expr)) :
    Expr :=
  match pairs with
  | [] => .StringImm ""
  | p :: rest => rest.foldl (fun cond q => .And cond (condFor simplify q))
      (condFor simplify p)

/-- The sanity-check loop of `BoundChecker::Update` from index 0
upward: the (loop-constant) `new_shape[0].defined()` test has already
been performed by the caller, so reaching an undefined extent here
means the C++ code reads `dtype()` off a null handle — an abort, not a
skip.  Returns `false` when a non-scalar or negative-constant extent
stops the update. -/
def scanExtents : List (Option Expr) → Except String Bool
  | [] => .ok true
  | none :: _ => .error "null Expr dtype access"
  | some e :: rest =>
      if !e.dtypeOf.isScalar || isNegativeConst e then .ok false
      else scanExtents rest

/-- The scalarization loop of `BoundChecker::Update`:
`lanes * e0 * lanes * e1 * ...` with every extent cast to `UInt(64)`.
The build loop only runs after the check loop passed, so every element
is defined; `getD` is the unreachable default. -/
def buildShape (lanes : Nat) (newShape : List (Option Expr)) : Expr :=
  match newShape with
  | some e0 :: rest =>
      rest.foldl
        (fun acc oe =>
          .Mul acc (.Mul (makeConst u64 (lanes : Int))
            (.Cast u64 (oe.getD (.StringImm "")))))
        (.Mul (makeConst u64 (lanes : Int)) (.Cast u64 e0))
  | _ => .StringImm ""

/-- `BoundChecker::Update`: skip on an empty extent list or an
undefined first extent; scan the extents (skipping on non-scalar or
negative-constant, aborting on an undefined later extent); otherwise
overwrite the buffer's shape with the unsigned-64-bit product. -/
def Update (m : List (String × Expr)) (buf : String)
    (newShape : List (Option Expr)) (t : DataType) :
    Except String (List (String × Expr)) :=
  match newShape with
  | [] => .ok m
  | first :: _ =>
    if first.isNone then .ok m
    else do
      let pass ← scanExtents newShape
      if pass then .ok (setMap m buf (buildShape t.lanes newShape))
      else .ok m

/-- The statement mutator of `BoundChecker`.  `simplify` is the
external `ir::Simplify` collaborator, taken as a parameter.  The store
handler mirrors the C++ flow: clear the collector, set the flags,
recurse into the (discarded) mutation of the children for their side
effects, then wrap the original store when anything was collected. -/
def bcVisitStmt (simplify : Expr → Expr) (mem : List (String × Expr))
    (sc : BCScratch) (s : Stmt) : Stmt × List (String × Expr) × BCScratch :=
  match s with
  | .LetStmt v t value body =>
      let sc := bcCollectExpr mem sc value
      let (body', mem, sc) := bcVisitStmt simplify mem sc body
      (.LetStmt v t value body', mem, sc)
  | .Store buf value idx pred =>
      let sc1 : BCScratch :=
        { processStore := true, unsafeRewritten := false, collector := [] }
      let sc2 := bcCollectExpr mem sc1 value
      let sc3 := bcCollectExpr mem sc2 idx
      let sc4 := bcCollectExpr mem sc3 pred
      let sc5 := { sc4 with processStore := false }
      let sc6 := if CanInstrument mem sc5.unsafeRewritten idx buf then
                   bcCollect mem sc5 idx buf
                 else sc5
      if sc6.collector.length ≠ 0 then
        let condition := MakeCondition simplify sc6.collector
        match condition with
        | .StringImm _ => (.Store buf value idx pred, mem, sc6)
        | _ =>
            (.IfThenElse condition (.Store buf value idx pred)
               (.AssertStmt condition (.StringImm "OUT OF THE BOUNDS")
                 (.Evaluate (makeConst i32 1))), mem, sc6)
      else (.Store buf value idx pred, mem, sc6)
  | .For lv t mn ext ft dev body =>
      let sc := bcCollectExpr mem (bcCollectExpr mem sc mn) ext
      let (body', mem, sc) := bcVisitStmt simplify mem sc body
      (.For lv t mn ext ft dev body', mem, sc)
  | .Evaluate value =>
      (.Evaluate value, mem, bcCollectExpr mem sc value)
  | .Allocate buf t extents cond body newExpr =>
      let mem := if (lookupMap mem buf).isSome then
                   match Update mem buf (extents.map some) t with
                   | .ok m' => m'
                   | .error _ => mem
                 else mem
      let sc := bcCollectExprList mem sc extents
      let sc := bcCollectExpr mem sc cond
      let sc := match newExpr with
                | some e => bcCollectExpr mem sc e
                | none => sc
      let (body', mem, sc) := bcVisitStmt simplify mem sc body
      (.Allocate buf t extents cond body' newExpr, mem, sc)
  | .AttrStmt node key value body =>
      let sc := bcCollectExpr mem sc value
      let (body', mem, sc) := bcVisitStmt simplify mem sc body
      (.AttrStmt node key value body', mem, sc)
  | .IfThenElse cond a b =>
      let sc := bcCollectExpr mem sc cond
      let (a', mem, sc) := bcVisitStmt simplify mem sc a
      let (b', mem, sc) := bcVisitStmt simplify mem sc b
      (.IfThenElse cond a' b', mem, sc)
  | .IfThen cond a =>
      let sc := bcCollectExpr mem sc cond
      let (a', mem, sc) := bcVisitStmt simplify mem sc a
      (.IfThen cond a', mem, sc)
  | .Block a b =>
      let (a', mem, sc) := bcVisitStmt simplify mem sc a
      let (b', mem, sc) := bcVisitStmt simplify mem sc b
      (.Block a' b', mem, sc)
  | .AssertStmt cond msg body =>
      let sc := bcCollectExpr mem (bcCollectExpr mem sc cond) msg
      let (body', mem, sc) := bcVisitStmt simplify mem sc body
      (.AssertStmt cond msg body', mem, sc)

/-- `InstrumentBoundCheckers`: run the collector, then the mutator. -/
def InstrumentBoundCheckers (simplify : Expr → Expr) (s : Stmt) : Stmt :=
  (bcVisitStmt simplify (boundCollect [] s) {} s).1

/-- C1: index rewrite consistency.  (a) A `Load` from a remapped buffer
gets index `old_index + var * stride_b`; (b) so does a `Store`;
(c) a `tvm_access_ptr` call on a remapped buffer gets offset
`(stride_b / dtype.lanes) * var + old_offset` with the other four
arguments unchanged; (d) the stride recorded by the `Allocate` handler
is the product of the allocation's original extents times the dtype's
lane count.  The child-visit hypotheses say the subexpressions are
returned unchanged by the mutator (they hold whenever the children do
not themselves reference remapped buffers). -/
theorem c1_index_rewrite_consistency :
    (∀ (cfg : VTCtx) (remap : List (String × Expr)) (tf tf1 tf2 : Bool)
       (t : DataType) (buf : String) (idx pred stride : Expr),
       lookupMap remap buf = some stride →
       vtVisitExpr cfg remap tf idx = .ok (idx, tf1) →
       vtVisitExpr cfg remap tf1 pred = .ok (pred, tf2) →
       vtVisitExpr cfg remap tf (.Load t buf idx pred) =
         .ok (.Load t buf (.Add idx (.Mul cfg.varExpr stride)) pred,
              tf2 || cfg.touchedVar.contains buf)) ∧
    (∀ (cfg : VTCtx) (st : VTState) (tf1 tf2 tf3 : Bool)
       (buf : String) (value idx pred stride : Expr),
       lookupMap st.allocRemap buf = some stride →
       vtVisitExpr cfg st.allocRemap st.visitTouched value = .ok (value, tf1) →
       vtVisitExpr cfg st.allocRemap tf1 idx = .ok (idx, tf2) →
       vtVisitExpr cfg st.allocRemap tf2 pred = .ok (pred, tf3) →
       vtVisitStore cfg st buf value idx pred =
         .ok (.Store buf value (.Add idx (.Mul cfg.varExpr stride)) pred,
              { st with
                  visitTouched := tf3 || cfg.touchedVar.contains buf,
                  triggerBase := !cfg.allowShare })) ∧
    (∀ (cfg : VTCtx) (remap : List (String × Expr)) (tf tfo tfe : Bool)
       (t bt : DataType) (bn : String) (a0 a2 a3 a4 strideB : Expr)
       (ct : Nat),
       lookupMap remap bn = some strideB →
       vtVisitExpr cfg remap true a2 = .ok (a2, tfo) →
       vtVisitExpr cfg remap tfo a3 = .ok (a3, tfe) →
       vtVisitExpr cfg remap tf
         (.Call t "tvm_access_ptr" [a0, .Variable bn bt, a2, a3, a4] ct) =
         .ok (.Call t "tvm_access_ptr"
           [a0, .Variable bn bt,
            .Add (.Mul (.Div strideB
                (makeConst a2.dtypeOf (a0.dtypeOf.lanes : Int)))
              cfg.varExpr) a2,
            a3, a4] ct, tfe)) ∧
    (∀ (cfg : VTCtx) (st st3 : VTState) (t : DataType) (buf : String)
       (e0 : Expr) (erest : List Expr) (cond cond' : Expr)
       (body body' : Stmt) (ne : Option Expr) (acc : List Expr),
       (cfg.touchedVar.contains buf || !cfg.allowShare) = true →
       vtVisitStmt cfg
         { st with
           visitTouched := false,
           allocRemap := setMap st.allocRemap buf
             (Expr.Mul (erest.foldl Expr.Mul e0)
               (makeConst (erest.foldl Expr.Mul e0).dtypeOf
                 (t.lanes : Int))) } body = .ok (body', st3) →
       vtVisitExtents cfg st (.Allocate buf t (e0 :: erest) cond body ne)
         cond' acc [] =
         .ok (.Allocate buf t
           (makeConst e0.dtypeOf cfg.numThreads :: acc) cond' body' ne,
           st3)) := by
  refine ⟨?_, ?_, ?_, ?_⟩
  · intro cfg remap tf tf1 tf2 t buf idx pred stride hmap h1 h2
    simp only [vtVisitExpr, Bind.bind, Except.bind]
    rw [h1]
    simp only
    rw [h2]
    simp [hmap, RewriteIndex]
  · intro cfg st tf1 tf2 tf3 buf value idx pred stride hmap h1 h2 h3
    simp only [vtVisitStore, Bind.bind, Except.bind]
    rw [h1]
    simp only
    rw [h2]
    simp only
    rw [h3]
    simp [hmap, RewriteIndex]
  · intro cfg remap tf tfo tfe t bt bn a0 a2 a3 a4 strideB ct hmap h1 h2
    simp only [vtVisitExpr, Bind.bind, Except.bind]
    rw [hmap]
    simp only
    rw [h1]
    simp only
    rw [h2]
    simp
  · intro cfg st st3 t buf e0 erest cond cond' body body' ne acc hshare hbody
    simp only [vtVisitExtents, vtVisitExtentsAux, Bind.bind, Except.bind,
      computeReduceMul]
    rw [hshare]
    simp only [if_true]
    rw [hbody]

/-- Witness for C1 at concrete inputs: buffer `B` remapped with stride
8, scalar constants as children. -/
theorem c1_index_rewrite_consistency_witness :
    (vtVisitExpr ⟨"vt", i32, 2, [], true⟩ [("B", .IntImm i32 8)] false
       (.Load i32 "B" (.IntImm i32 3) (.IntImm boolTy 1)) =
      .ok (.Load i32 "B"
        (.Add (.IntImm i32 3)
          (.Mul (.Variable "vt" i32) (.IntImm i32 8))) (.IntImm boolTy 1),
        false)) ∧
    (vtVisitStore ⟨"vt", i32, 2, [], true⟩
       { allocRemap := [("B", .IntImm i32 8)] } "B"
       (.IntImm i32 7) (.IntImm i32 3) (.IntImm boolTy 1) =
      .ok (.Store "B" (.IntImm i32 7)
        (.Add (.IntImm i32 3)
          (.Mul (.Variable "vt" i32) (.IntImm i32 8))) (.IntImm boolTy 1),
        { allocRemap := [("B", .IntImm i32 8)], visitTouched := false,
          triggerBase := false })) ∧
    (vtVisitExpr ⟨"vt", i32, 2, [], true⟩ [("B", .IntImm i32 8)] false
       (.Call handleTy "tvm_access_ptr"
         [.IntImm i32 0, .Variable "B" handleTy, .IntImm i32 5,
          .IntImm i32 1, .IntImm i32 3] 4) =
      .ok (.Call handleTy "tvm_access_ptr"
        [.IntImm i32 0, .Variable "B" handleTy,
         .Add (.Mul (.Div (.IntImm i32 8) (.IntImm i32 1))
           (.Variable "vt" i32)) (.IntImm i32 5),
         .IntImm i32 1, .IntImm i32 3] 4, true)) ∧
    (vtVisitExtents ⟨"vt", i32, 2, ["B"], true⟩ {}
       (.Allocate "B" i32 [.IntImm i32 4] (.IntImm boolTy 1)
         (.Evaluate (.IntImm i32 0)) none)
       (.IntImm boolTy 1) [.IntImm i32 4] [] =
      .ok (.Allocate "B" i32 [.IntImm i32 2, .IntImm i32 4]
        (.IntImm boolTy 1) (.Evaluate (.IntImm i32 0)) none,
        { allocRemap := [("B", .Mul (.IntImm i32 4) (.IntImm i32 1))] })) := by
  refine ⟨?_, ?_, ?_, ?_⟩
  · exact c1_index_rewrite_consistency.1 _ _ _ false false _ _ _ _ _ rfl
      (by simp [vtVisitExpr]) (by simp [vtVisitExpr])
  · exact c1_index_rewrite_consistency.2.1 _ _ false false false _ _ _ _ _ rfl
      (by simp [vtVisitExpr]) (by simp [vtVisitExpr]) (by simp [vtVisitExpr])
  · exact c1_index_rewrite_consistency.2.2.1 _ _ _ true true _ _ _ _ _ _ _ _ _
      rfl (by simp [vtVisitExpr]) (by simp [vtVisitExpr])
  · exact c1_index_rewrite_consistency.2.2.2 _ _ _ _ _ _ [] _ _ _ _ _ _
      (by decide)
      (by simp [vtVisitStmt, vtStmtEvaluate, vtVisitExpr, setMap, makeConst,
            Expr.dtypeOf, i32, Bind.bind, Except.bind])

theorem vtState_eta_touched {st : VTState} (h : st.visitTouched = false) :
    ({ st with visitTouched := false } : VTState) = st := by
  cases st
  simp_all

/-- Clearing an already-clear touched flag does not change the extent
loop (the callbacks are typed against the original state, so this is
proved by splitting the state record rather than by rewriting). -/
theorem vtVisitExtentsAux_eta (cfg : VTCtx)
    (buf : String) (t : DataType) (extents : List Expr) (c0 : Expr)
    (body : Stmt) (newExpr : Option Expr) (cond' : Expr)
    (acc rem : List Expr) :
    ∀ (st : VTState), st.visitTouched = false →
      ∀ (visit : (st2 : VTState) → (t2 : Stmt) →
          sizeOf t2 < sizeOf (Stmt.Allocate buf t extents c0 body newExpr) →
          Except String (Stmt × VTState))
        (inject : (st2 : VTState) → st.vtLoopInjected = false →
          Except String (Stmt × VTState)),
      vtVisitExtentsAux cfg { st with visitTouched := false }
          (.Allocate buf t extents c0 body newExpr) cond' acc rem
          visit inject =
        vtVisitExtentsAux cfg st (.Allocate buf t extents c0 body newExpr)
          cond' acc rem visit inject := by
  intro st
  cases st with
  | mk vfl vto trb mld arm =>
    intro h visit inject
    have hb : vto = false := h
    subst hb
    rfl

/-- When every remaining extent is returned unchanged with the flag
still clear, the extent loop just transfers them into the accumulator
(stated over arbitrary visitor callbacks). -/
theorem vtVisitExtentsAux_clean (cfg : VTCtx) (st : VTState)
    (buf : String) (t : DataType) (extents : List Expr) (c0 : Expr)
    (body : Stmt) (newExpr : Option Expr) (cond' : Expr) :
    ∀ (rem acc : List Expr)
      (visit : (st2 : VTState) → (t2 : Stmt) →
        sizeOf t2 < sizeOf (Stmt.Allocate buf t extents c0 body newExpr) →
        Except String (Stmt × VTState))
      (inject : (st2 : VTState) → st.vtLoopInjected = false →
        Except String (Stmt × VTState)),
      st.visitTouched = false →
      (∀ e ∈ rem, vtVisitExpr cfg st.allocRemap false e = .ok (e, false)) →
      vtVisitExtentsAux cfg st (.Allocate buf t extents c0 body newExpr)
          cond' acc rem visit inject =
        vtVisitExtentsAux cfg st (.Allocate buf t extents c0 body newExpr)
          cond' (acc ++ rem) [] visit inject := by
  intro rem
  induction rem with
  | nil => intro acc visit inject _ _; simp
  | cons e rest ih =>
    intro acc visit inject hflag hclean
    have he := hclean e (by simp)
    rw [vtVisitExtentsAux]
    rw [hflag]
    simp only [Bind.bind, Except.bind]
    rw [he]
    simp only
    rw [dif_neg (by simp)]
    rw [vtVisitExtentsAux_eta cfg buf t extents c0 body newExpr cond'
      (acc ++ [e]) rest st hflag visit inject]
    rw [ih _ visit inject hflag (fun x hx => hclean x (by simp [hx]))]
    simp

/-- The same transfer fact for the extent loop tied to the mutator. -/
theorem vtVisitExtents_clean (cfg : VTCtx) (st : VTState) (orig : Stmt)
    (cond' : Expr) :
    ∀ (rem acc : List Expr), st.visitTouched = false →
      (∀ e ∈ rem, vtVisitExpr cfg st.allocRemap false e = .ok (e, false)) →
      vtVisitExtents cfg st orig cond' acc rem =
        vtVisitExtents cfg st orig cond' (acc ++ rem) [] := by
  intro rem acc hflag hclean
  cases orig with
  | Allocate buf t extents cond body newExpr =>
    simp only [vtVisitExtents]
    exact vtVisitExtentsAux_clean cfg st buf t extents cond body newExpr
      cond' rem acc _ _ hflag hclean
  | LetStmt v t value body => simp [vtVisitExtents, vtVisitExtentsAux]
  | Store b v i p => simp [vtVisitExtents, vtVisitExtentsAux]
  | For lv t mn ext ft dev body => simp [vtVisitExtents, vtVisitExtentsAux]
  | Evaluate v => simp [vtVisitExtents, vtVisitExtentsAux]
  | AttrStmt n k v b => simp [vtVisitExtents, vtVisitExtentsAux]
  | IfThenElse c a b => simp [vtVisitExtents, vtVisitExtentsAux]
  | IfThen c a => simp [vtVisitExtents, vtVisitExtentsAux]
  | Block a b => simp [vtVisitExtents, vtVisitExtentsAux]
  | AssertStmt c m b => simp [vtVisitExtents, vtVisitExtentsAux]

/-- C3: allocation expansion.  Under clean child visits, an `Allocate`
whose buffer is touched, or which sits in a non-shareable region, gets
exactly one extra outermost extent `num_threads` prepended to its
original extents; any other `Allocate` keeps its extents unchanged. -/
theorem c3_allocation_expansion :
    ∀ (cfg : VTCtx) (st : VTState) (buf : String) (t : DataType)
      (e0 : Expr) (erest : List Expr) (cond : Expr) (body : Stmt),
      st.visitTouched = false →
      vtVisitExpr cfg st.allocRemap false cond = .ok (cond, false) →
      (∀ e ∈ e0 :: erest,
        vtVisitExpr cfg st.allocRemap false e = .ok (e, false)) →
      (((cfg.touchedVar.contains buf || !cfg.allowShare) = true →
        ∀ (body' : Stmt) (st3 : VTState),
          vtVisitStmt cfg
            { st with
              visitTouched := false,
              allocRemap := setMap st.allocRemap buf
                (Expr.Mul (erest.foldl Expr.Mul e0)
                  (makeConst (erest.foldl Expr.Mul e0).dtypeOf
                    (t.lanes : Int))) } body = .ok (body', st3) →
          vtStmtAllocate cfg st buf t (e0 :: erest) cond body none =
            .ok (.Allocate buf t
              (makeConst e0.dtypeOf cfg.numThreads :: (e0 :: erest))
              cond body' none, st3)) ∧
       ((cfg.touchedVar.contains buf || !cfg.allowShare) = false →
        ∀ (body' : Stmt) (st2 : VTState),
          vtVisitStmt cfg { st with visitTouched := false } body =
            .ok (body', st2) →
          vtStmtAllocate cfg st buf t (e0 :: erest) cond body none =
            .ok (.Allocate buf t (e0 :: erest) cond body' none, st2))) := by
  intro cfg st buf t e0 erest cond body hflag hcond hexts
  have hmain : vtStmtAllocate cfg st buf t (e0 :: erest) cond body none =
      vtVisitExtents cfg st (.Allocate buf t (e0 :: erest) cond body none)
        cond ([] ++ (e0 :: erest)) [] := by
    rw [vtStmtAllocate, vtStmtAllocateAux]
    simp only [Option.isSome_none, Bool.false_and, Bool.false_eq_true,
      dite_false, Bind.bind, Except.bind]
    rw [hflag]
    rw [hcond]
    simp only [Bool.false_and, Bool.false_eq_true, dite_false]
    rw [vtVisitExtentsAux_eta cfg buf t (e0 :: erest) cond body none cond
      [] (e0 :: erest) st hflag]
    simp only [vtVisitExtents]
    exact vtVisitExtentsAux_clean cfg st buf t (e0 :: erest) cond body none
      cond (e0 :: erest) [] _ _ hflag hexts
  constructor
  · intro hshare body' st3 hbody
    rw [hmain]
    simp only [vtVisitExtents, vtVisitExtentsAux, List.nil_append,
      Bind.bind, Except.bind, computeReduceMul]
    rw [hshare]
    simp only [if_true]
    rw [hbody]
  · intro hshare body' st2 hbody
    rw [hmain]
    simp only [vtVisitExtents, vtVisitExtentsAux, List.nil_append,
      Bind.bind, Except.bind]
    rw [hshare]
    simp only [Bool.false_eq_true, if_false]
    rw [hbody]

/-- Witness for C3 at concrete inputs: a touched buffer gets the
thread-count extent prepended; an untouched shareable one keeps its
extents. -/
theorem c3_allocation_expansion_witness :
    (vtStmtAllocate ⟨"vt", i32, 4, ["B"], true⟩ {} "B" i32 [.IntImm i32 4]
       (.IntImm boolTy 1) (.Evaluate (.IntImm i32 0)) none =
      .ok (.Allocate "B" i32 [.IntImm i32 4, .IntImm i32 4]
        (.IntImm boolTy 1) (.Evaluate (.IntImm i32 0)) none,
        { allocRemap := [("B", .Mul (.IntImm i32 4) (.IntImm i32 1))] })) ∧
    (vtStmtAllocate ⟨"vt", i32, 4, [], true⟩ {} "C" i32 [.IntImm i32 4]
       (.IntImm boolTy 1) (.Evaluate (.IntImm i32 0)) none =
      .ok (.Allocate "C" i32 [.IntImm i32 4]
        (.IntImm boolTy 1) (.Evaluate (.IntImm i32 0)) none, {})) := by
  constructor
  · have h := (c3_allocation_expansion ⟨"vt", i32, 4, ["B"], true⟩ {} "B" i32
      (.IntImm i32 4) [] (.IntImm boolTy 1) (.Evaluate (.IntImm i32 0))
      rfl (by simp [vtVisitExpr]) (by intro e he; simp at he; subst he
                                      simp [vtVisitExpr])).1
    refine Eq.trans (h (by decide) (.Evaluate (.IntImm i32 0))
      { allocRemap := [("B", .Mul (.IntImm i32 4)
          (makeConst (Expr.dtypeOf (.IntImm i32 4)) (i32.lanes : Int)))] }
      (by simp [vtVisitStmt, vtStmtEvaluate, vtVisitExpr, setMap,
            Bind.bind, Except.bind])) ?_
    simp [makeConst, Expr.dtypeOf, i32]
  · have h := (c3_allocation_expansion ⟨"vt", i32, 4, [], true⟩ {} "C" i32
      (.IntImm i32 4) [] (.IntImm boolTy 1) (.Evaluate (.IntImm i32 0))
      rfl (by simp [vtVisitExpr]) (by intro e he; simp at he; subst he
                                      simp [vtVisitExpr])).2
    exact h (by decide) (.Evaluate (.IntImm i32 0)) {}
      (by simp [vtVisitStmt, vtStmtEvaluate, vtVisitExpr,
            Bind.bind, Except.bind])

/-- Chain statements with `Block` nodes, nesting on the left:
`leftChain s [a, b] = Block (Block s a) b`. -/
def leftChain (s : Stmt) (l : List Stmt) : Stmt := l.foldl .Block s

/-- The form of `InjectVTLoop`: it emits `emitLoop` over the re-mutated
statement, the unrolled block chain when `max_loop_depth == 0` and
`num_threads < 16`, and the serial `For` otherwise. -/
theorem vtInjectPre_form :
    ∀ (cfg : VTCtx) (st st2 : VTState) (s s' : Stmt),
      st.vtLoopInjected = false →
      vtVisitStmt cfg
        { st with visitTouched := false, triggerBase := false,
                  vtLoopInjected := true } s = .ok (s', st2) →
      vtInjectPre cfg st s =
        .ok (emitLoop cfg st2.maxLoopDepth s',
             { st2 with vtLoopInjected := false, visitTouched := false }) ∧
      (st2.maxLoopDepth = 0 ∧ cfg.numThreads < 16 →
        emitLoop cfg st2.maxLoopDepth s' =
          leftChain (substStmt cfg.varName (makeZero cfg.varType) s')
            ((List.range (cfg.numThreads - 1).toNat).map
              (fun (k : Nat) => substStmt cfg.varName
                (makeConst cfg.varType ((k : Int) + 1)) s'))) ∧
      (¬(st2.maxLoopDepth = 0 ∧ cfg.numThreads < 16) →
        emitLoop cfg st2.maxLoopDepth s' =
          .For (cfg.varName ++ ".s") cfg.varType (makeZero cfg.varType)
            (makeConst cfg.varType cfg.numThreads) 0 0
            (substStmt cfg.varName
              (.Variable (cfg.varName ++ ".s") cfg.varType) s')) := by
  intro cfg st st2 s s' hinj hvisit
  refine ⟨?_, ?_, ?_⟩
  · rw [vtInjectPre, vtInjectPreAux, hinj]
    simp only [Bool.false_eq_true, if_false, Bind.bind, Except.bind]
    rw [hvisit]
  · intro h
    rw [emitLoop, if_pos]
    · rw [unrollLoop, leftChain, List.foldl_map]
    · simp [h.1, h.2]
  · intro h
    rw [emitLoop, if_neg]
    simp only [Decidable.not_and_iff_or_not] at h
    intro hc
    simp only [Bool.and_eq_true, beq_iff_eq, decide_eq_true_eq] at hc
    rcases h with h | h
    · exact h hc.1
    · exact h hc.2

/-- C5: the form of `InjectVTLoop`.  When the re-mutation of the
statement finishes with `max_loop_depth == 0` and `num_threads < 16`,
the result is the chain of `Block` nodes over the substitutions
`var <- 0, 1, ..., num_threads-1` (outermost `Block` ending in the
last thread); otherwise it is
`For(<var>.s, 0, num_threads, serial, none, stmt[var <- <var>.s])`. -/
theorem c5_inject_vt_loop_form :
    ∀ (cfg : VTCtx) (st st2 : VTState) (s s' : Stmt),
      st.vtLoopInjected = false →
      vtVisitStmt cfg
        { st with visitTouched := false, triggerBase := false,
                  vtLoopInjected := true } s = .ok (s', st2) →
      vtInjectPre cfg st s =
        .ok (emitLoop cfg st2.maxLoopDepth s',
             { st2 with vtLoopInjected := false, visitTouched := false }) ∧
      (st2.maxLoopDepth = 0 ∧ cfg.numThreads < 16 →
        emitLoop cfg st2.maxLoopDepth s' =
          leftChain (substStmt cfg.varName (makeZero cfg.varType) s')
            ((List.range (cfg.numThreads - 1).toNat).map
              (fun (k : Nat) => substStmt cfg.varName
                (makeConst cfg.varType ((k : Int) + 1)) s'))) ∧
      (¬(st2.maxLoopDepth = 0 ∧ cfg.numThreads < 16) →
        emitLoop cfg st2.maxLoopDepth s' =
          .For (cfg.varName ++ ".s") cfg.varType (makeZero cfg.varType)
            (makeConst cfg.varType cfg.numThreads) 0 0
            (substStmt cfg.varName
              (.Variable (cfg.varName ++ ".s") cfg.varType) s')) :=
  vtInjectPre_form

/-- Witness for C5 at a concrete input: three virtual threads over an
evaluation of the thread variable unroll into a left-nested block
chain. -/
theorem c5_inject_vt_loop_form_witness :
    vtInjectPre ⟨"vt", i32, 3, [], true⟩ {} (.Evaluate (.Variable "vt" i32)) =
      .ok (.Block
            (.Block (.Evaluate (.IntImm i32 0)) (.Evaluate (.IntImm i32 1)))
            (.Evaluate (.IntImm i32 2)), {}) := by
  have h := c5_inject_vt_loop_form ⟨"vt", i32, 3, [], true⟩ {}
    { vtLoopInjected := true } (.Evaluate (.Variable "vt" i32))
    (.Evaluate (.Variable "vt" i32)) rfl
    (by simp [vtVisitStmt, vtStmtEvaluate, vtVisitExpr, lookupMap,
          Bind.bind, Except.bind])
  rw [h.1, h.2.1 (by constructor <;> decide)]
  simp [leftChain, substStmt, substExpr, makeZero, makeConst, List.range,
    List.range.loop]

/-- Is the root node a `Block`? -/
def isBlockNode : Stmt → Bool
  | .Block _ _ => true
  | _ => false

/-- Does the statement tree contain a conditional (`IfThenElse` with or
without an else branch)? -/
def containsIfNode : Stmt → Bool
  | .LetStmt _ _ _ body => containsIfNode body
  | .Store _ _ _ _ => false
  | .For _ _ _ _ _ _ body => containsIfNode body
  | .Evaluate _ => false
  | .Allocate _ _ _ _ body _ => containsIfNode body
  | .AttrStmt _ _ _ body => containsIfNode body
  | .IfThenElse _ _ _ => true
  | .IfThen _ _ => true
  | .Block a b => containsIfNode a || containsIfNode b
  | .AssertStmt _ _ body => containsIfNode body

/-- The C4 counterexample input: two virtual threads over a let whose
value reads the thread variable, with an `IfThenElse` (null else) in
the let body. -/
def c4Input : Stmt :=
  .AttrStmt (.iterVar "vt" i32 "vthread") "virtual_thread" (.IntImm i32 2)
    (.LetStmt "x" i32 (.Variable "vt" i32)
      (.IfThen (.IntImm boolTy 1) (.Evaluate (.IntImm i32 0))))

/-- The output the pass produces on `c4Input`: an unrolled block
chain. -/
def c4Output : Stmt :=
  .Block
    (.LetStmt "x" i32 (.IntImm i32 0)
      (.IfThen (.IntImm boolTy 1) (.Evaluate (.IntImm i32 0))))
    (.LetStmt "x" i32 (.IntImm i32 1)
      (.IfThen (.IntImm boolTy 1) (.Evaluate (.IntImm i32 0))))

/-- The outer mutator leaves the statement under the attribute
unchanged (no nested `virtual_thread` attribute inside). -/
theorem c4_mutator_fixes_inner :
    VirtualThreadInjector
      (.LetStmt "x" i32 (.Variable "vt" i32)
        (.IfThen (.IntImm boolTy 1) (.Evaluate (.IntImm i32 0)))) =
      .ok (.LetStmt "x" i32 (.Variable "vt" i32)
        (.IfThen (.IntImm boolTy 1) (.Evaluate (.IntImm i32 0)))) := by
  simp [VirtualThreadInjector, Bind.bind, Except.bind]

/-- The touched-variable analysis of the counterexample body: `x`
reads the thread variable, so both are touched. -/
theorem c4_touched_vars :
    TouchedVar
      (.LetStmt "x" i32 (.Variable "vt" i32)
        (.IfThen (.IntImm boolTy 1) (.Evaluate (.IntImm i32 0)))) "vt" =
      .ok ["vt", "x"] := by
  simp [TouchedVar, varTouchWalk, exprTouchedVisit, handleUseVar,
    record, closure, newFrom, succs, lookupMap, Bind.bind, Except.bind]

/-- Re-running the mutator over the counterexample body with the
injection flag set returns it unchanged. -/
theorem c4_revisit_identity :
    vtVisitStmt ⟨"vt", i32, 2, ["vt", "x"], true⟩ { vtLoopInjected := true }
      (.LetStmt "x" i32 (.Variable "vt" i32)
        (.IfThen (.IntImm boolTy 1) (.Evaluate (.IntImm i32 0)))) =
      .ok (.LetStmt "x" i32 (.Variable "vt" i32)
        (.IfThen (.IntImm boolTy 1) (.Evaluate (.IntImm i32 0))),
        { vtLoopInjected := true }) := by
  simp [vtVisitStmt, vtStmtLetAux, vtStmtIfThenAux, vtStmtEvaluate,
    vtVisitExpr, lookupMap, Bind.bind, Except.bind]

/-- Emitting the loop for the re-mutated counterexample body unrolls
into the two-thread block chain. -/
theorem c4_emit_unrolls :
    emitLoop ⟨"vt", i32, 2, ["vt", "x"], true⟩ 0
      (.LetStmt "x" i32 (.Variable "vt" i32)
        (.IfThen (.IntImm boolTy 1) (.Evaluate (.IntImm i32 0)))) =
      c4Output := by
  simp [emitLoop, unrollLoop, c4Output, substStmt, substExpr, makeZero,
    makeConst, List.range_succ]

/-- `InjectVTLoop` on the counterexample body: re-mutation returns the
body unchanged, and the loop emission unrolls it. -/
theorem c4_inject_pre :
    vtInjectPreAux ⟨"vt", i32, 2, ["vt", "x"], true⟩ { visitTouched := true }
      (.LetStmt "x" i32 (.Variable "vt" i32)
        (.IfThen (.IntImm boolTy 1) (.Evaluate (.IntImm i32 0))))
      (fun st3 h3 => vtVisitStmt ⟨"vt", i32, 2, ["vt", "x"], true⟩ st3
        (.LetStmt "x" i32 (.Variable "vt" i32)
          (.IfThen (.IntImm boolTy 1) (.Evaluate (.IntImm i32 0))))) =
      .ok (c4Output, {}) := by
  have hA : vtInjectPreAux ⟨"vt", i32, 2, ["vt", "x"], true⟩
      { visitTouched := true }
      (.LetStmt "x" i32 (.Variable "vt" i32)
        (.IfThen (.IntImm boolTy 1) (.Evaluate (.IntImm i32 0))))
      (fun st3 h3 => vtVisitStmt ⟨"vt", i32, 2, ["vt", "x"], true⟩ st3
        (.LetStmt "x" i32 (.Variable "vt" i32)
          (.IfThen (.IntImm boolTy 1) (.Evaluate (.IntImm i32 0))))) =
      (do
        let (s2, st2) ← vtVisitStmt ⟨"vt", i32, 2, ["vt", "x"], true⟩
          { vtLoopInjected := true }
          (.LetStmt "x" i32 (.Variable "vt" i32)
            (.IfThen (.IntImm boolTy 1) (.Evaluate (.IntImm i32 0))))
        let st4 := { st2 with vtLoopInjected := false, visitTouched := false }
        .ok (emitLoop ⟨"vt", i32, 2, ["vt", "x"], true⟩
          st4.maxLoopDepth s2, st4)) := by
    rw [vtInjectPreAux]
    rfl
  have hB : (do
        let (s2, st2) ← vtVisitStmt ⟨"vt", i32, 2, ["vt", "x"], true⟩
          { vtLoopInjected := true }
          (.LetStmt "x" i32 (.Variable "vt" i32)
            (.IfThen (.IntImm boolTy 1) (.Evaluate (.IntImm i32 0))))
        let st4 := { st2 with vtLoopInjected := false, visitTouched := false }
        .ok (emitLoop ⟨"vt", i32, 2, ["vt", "x"], true⟩
          st4.maxLoopDepth s2, st4) :
        Except String (Stmt × VTState)) =
      .ok (emitLoop ⟨"vt", i32, 2, ["vt", "x"], true⟩ 0
        (.LetStmt "x" i32 (.Variable "vt" i32)
          (.IfThen (.IntImm boolTy 1) (.Evaluate (.IntImm i32 0)))), {}) := by
    rw [c4_revisit_identity]
    rfl
  rw [hA, hB, c4_emit_unrolls]

/-- The `LetStmt` handler on the counterexample body takes the inject
branch (the let value reads the touched thread variable). -/
theorem c4_let_handler :
    vtStmtLetAux ⟨"vt", i32, 2, ["vt", "x"], true⟩ {} "x" i32
      (.Variable "vt" i32)
      (.IfThen (.IntImm boolTy 1) (.Evaluate (.IntImm i32 0)))
      (fun st2 t2 hsz => vtVisitStmt ⟨"vt", i32, 2, ["vt", "x"], true⟩ st2 t2)
      (fun st2 hflag =>
        vtInjectPreAux ⟨"vt", i32, 2, ["vt", "x"], true⟩ st2
          (.LetStmt "x" i32 (.Variable "vt" i32)
            (.IfThen (.IntImm boolTy 1) (.Evaluate (.IntImm i32 0))))
          (fun st3 h3 =>
            vtVisitStmt ⟨"vt", i32, 2, ["vt", "x"], true⟩ st3
              (.LetStmt "x" i32 (.Variable "vt" i32)
                (.IfThen (.IntImm boolTy 1) (.Evaluate (.IntImm i32 0)))))) =
      .ok (c4Output, {}) := by
  have hV : vtVisitExpr ⟨"vt", i32, 2, ["vt", "x"], true⟩ [] false
      (.Variable "vt" i32) = .ok (.Variable "vt" i32, true) := by
    simp [vtVisitExpr, lookupMap]
  simp only [vtStmtLetAux]
  rw [hV]
  show vtInjectPreAux ⟨"vt", i32, 2, ["vt", "x"], true⟩
      { visitTouched := true }
      (.LetStmt "x" i32 (.Variable "vt" i32)
        (.IfThen (.IntImm boolTy 1) (.Evaluate (.IntImm i32 0))))
      (fun st3 h3 => vtVisitStmt ⟨"vt", i32, 2, ["vt", "x"], true⟩ st3
        (.LetStmt "x" i32 (.Variable "vt" i32)
          (.IfThen (.IntImm boolTy 1) (.Evaluate (.IntImm i32 0))))) =
    .ok (c4Output, {})
  exact c4_inject_pre

/-- Mutating the counterexample body with a clear state injects at the
touched `LetStmt` and unrolls into the block chain. -/
theorem c4_inject_unrolls :
    vtVisitStmt ⟨"vt", i32, 2, ["vt", "x"], true⟩ {}
      (.LetStmt "x" i32 (.Variable "vt" i32)
        (.IfThen (.IntImm boolTy 1) (.Evaluate (.IntImm i32 0)))) =
      .ok (c4Output, {}) := by
  rw [vtVisitStmt]
  show Except.bind
      (vtStmtLetAux ⟨"vt", i32, 2, ["vt", "x"], true⟩ {} "x" i32
        (.Variable "vt" i32)
        (.IfThen (.IntImm boolTy 1) (.Evaluate (.IntImm i32 0)))
        (fun st2 t2 hsz =>
          vtVisitStmt ⟨"vt", i32, 2, ["vt", "x"], true⟩ st2 t2)
        (fun st2 hflag =>
          vtInjectPreAux ⟨"vt", i32, 2, ["vt", "x"], true⟩ st2
            (.LetStmt "x" i32 (.Variable "vt" i32)
              (.IfThen (.IntImm boolTy 1) (.Evaluate (.IntImm i32 0))))
            (fun st3 h3 =>
              vtVisitStmt ⟨"vt", i32, 2, ["vt", "x"], true⟩ st3
                (.LetStmt "x" i32 (.Variable "vt" i32)
                  (.IfThen (.IntImm boolTy 1)
                    (.Evaluate (.IntImm i32 0)))))))
      (fun p => match p with
        | (s', st') =>
          if (st'.visitTouched || st'.triggerBase) = true then
            if (!st'.vtLoopInjected) = true then
              vtInjectPost ⟨"vt", i32, 2, ["vt", "x"], true⟩ st' s'
            else
              .ok (s',
                { st' with visitTouched := false, triggerBase := false })
          else .ok (s', st')) =
    .ok (c4Output, {})
  rw [c4_let_handler]
  rfl

theorem except_bind_ok {α β : Type} (a : α) (f : α → Except String β) :
    Except.bind (Except.ok a) f = f a := rfl

/-- Counterexample to C4 as stated: on `c4Input` (with
`num_threads = 2 < 16`) the pass chooses the unrolled block form even
though an `IfThenElse` node survives beneath the injection point, so
"no For/IfThenElse/Block survived" is not necessary for unrolling. -/
theorem c4_unrolling_gate_counterexample :
    VirtualThreadInjector c4Input = .ok c4Output ∧
    isBlockNode c4Output = true ∧
    containsIfNode c4Output = true := by
  refine ⟨?_, rfl, by simp [c4Output, containsIfNode]⟩
  rw [c4Input]
  simp only [VirtualThreadInjector, Bind.bind, Except.bind, except_bind_ok,
    beq_self_eq_true, reduceIte, c4_touched_vars, c4_inject_unrolls]

theorem foldl_block_ne_nil :
    ∀ (l : List Stmt), l ≠ [] → ∀ init,
      ∃ a b, l.foldl Stmt.Block init = .Block a b := by
  intro l
  induction l with
  | nil => intro h; exact absurd rfl h
  | cons x rest ih =>
    intro _ init
    cases rest with
    | nil => exact ⟨init, x, rfl⟩
    | cons y r2 => exact ih (by simp) (.Block init x)

/-- Amended C4: the unrolled block form is chosen iff
`num_threads < 16` and the loop-depth counter is zero at the injection
point.  The counter is incremented only by `For` statements, so
`IfThenElse`/`Block` nodes beneath the injection point do not preclude
unrolling (see the counterexample).  The bound `2 ≤ num_threads` keeps
the two output shapes distinguishable. -/
theorem c4_unrolling_gate_amended :
    ∀ (cfg : VTCtx) (st st2 : VTState) (s s' : Stmt),
      st.vtLoopInjected = false →
      2 ≤ cfg.numThreads →
      vtVisitStmt cfg
        { st with visitTouched := false, triggerBase := false,
                  vtLoopInjected := true } s = .ok (s', st2) →
      ((∃ a b, vtInjectPre cfg st s =
          .ok (.Block a b,
            { st2 with vtLoopInjected := false, visitTouched := false })) ↔
        (st2.maxLoopDepth = 0 ∧ cfg.numThreads < 16)) := by
  intro cfg st st2 s s' hinj hnt hvisit
  have hmain := (vtInjectPre_form cfg st st2 s s' hinj hvisit).1
  constructor
  · rintro ⟨a, b, hab⟩
    rw [hmain] at hab
    by_cases hgate : st2.maxLoopDepth = 0 ∧ cfg.numThreads < 16
    · exact hgate
    · exfalso
      rw [(vtInjectPre_form cfg st st2 s s' hinj hvisit).2.2 hgate]
        at hab
      simp at hab
  · intro hgate
    rw [hmain]
    rw [emitLoop, if_pos (by simp [hgate.1, hgate.2])]
    rw [unrollLoop]
    obtain ⟨a, b, hab⟩ := foldl_block_ne_nil
      ((List.range (cfg.numThreads - 1).toNat).map
        (fun (k : Nat) => substStmt cfg.varName
          (makeConst cfg.varType ((k : Int) + 1)) s'))
      (by
        simp only [ne_eq, List.map_eq_nil_iff, List.range_eq_nil]
        omega)
      (substStmt cfg.varName (makeZero cfg.varType) s')
    rw [List.foldl_map] at hab
    exact ⟨a, b, by rw [hab]⟩

/-- Witness for the amended C4: three threads over an evaluation give
the unrolled block form, and the gate condition holds. -/
theorem c4_unrolling_gate_amended_witness :
    ∃ a b, vtInjectPre ⟨"vt", i32, 3, [], true⟩ {}
        (.Evaluate (.Variable "vt" i32)) =
      .ok (.Block a b, {}) := by
  have h := c4_unrolling_gate_amended ⟨"vt", i32, 3, [], true⟩ {}
    { vtLoopInjected := true } (.Evaluate (.Variable "vt" i32))
    (.Evaluate (.Variable "vt" i32)) rfl (by norm_num)
    (by simp [vtVisitStmt, vtStmtEvaluate, vtVisitExpr, lookupMap,
          Bind.bind, Except.bind])
  exact h.mpr ⟨rfl, by norm_num⟩

/-- C2: bound-check wrapping.  For a store whose recursion (over value,
index, predicate) produced scratch state `sc4`, with `pairs` the
collected (index, bound) pairs plus the store's own pair when it is
instrumentable: if `pairs` is non-empty and the built condition is not
a string immediate, the handler returns
`IfThenElse(cond, original store, AssertStmt(cond, "OUT OF THE
BOUNDS", Evaluate(1)))`; if the condition is a string immediate the
original store is returned unwrapped.  The final conjunct pins down the
condition: the left-fold conjunction over the pairs of
`cast_i64(simplify(idx')) >= 0 && cast_i64(simplify(idx')) <
cast_i64(simplify(bound))`, where `idx'` takes the maximum lane
`base + stride*(lanes-1)` of a `Ramp` index. -/
theorem c2_bound_check_wrap :
    ∀ (simplify : Expr → Expr) (mem : List (String × Expr)) (sc : BCScratch)
      (buf : String) (value idx pred : Expr) (sc4 : BCScratch)
      (pairs : List (Expr × Expr)),
      bcCollectExpr mem (bcCollectExpr mem (bcCollectExpr mem
        { processStore := true, unsafeRewritten := false, collector := [] }
        value) idx) pred = sc4 →
      pairs = sc4.collector ++
        (if CanInstrument mem sc4.unsafeRewritten idx buf
         then [(idx, (lookupMap mem buf).getD (.StringImm ""))] else []) →
      ((pairs ≠ [] → (∀ str, MakeCondition simplify pairs ≠ .StringImm str) →
        (bcVisitStmt simplify mem sc (.Store buf value idx pred)).1 =
          .IfThenElse (MakeCondition simplify pairs)
            (.Store buf value idx pred)
            (.AssertStmt (MakeCondition simplify pairs)
              (.StringImm "OUT OF THE BOUNDS")
              (.Evaluate (.IntImm i32 1)))) ∧
       (∀ str, MakeCondition simplify pairs = .StringImm str →
        (bcVisitStmt simplify mem sc (.Store buf value idx pred)).1 =
          .Store buf value idx pred) ∧
       (∀ p rest, MakeCondition simplify (p :: rest) =
          rest.foldl (fun c q => .And c (condFor simplify q))
            (condFor simplify p)) ∧
       (∀ (a ub : Expr), condFor simplify (a, ub) =
          .And (.GE (.Cast i64 (simplify (match a with
              | .Ramp base stride lanes =>
                  .Add base (.Mul stride
                    (makeConst stride.dtypeOf ((lanes : Int) - 1)))
              | i => i))) (.IntImm i64 0))
            (.LT (.Cast i64 (simplify (match a with
              | .Ramp base stride lanes =>
                  .Add base (.Mul stride
                    (makeConst stride.dtypeOf ((lanes : Int) - 1)))
              | i => i))) (.Cast i64 (simplify ub))))) := by
  intro simplify mem sc buf value idx pred sc4 pairs h4 hpairs
  have hmain : bcVisitStmt simplify mem sc (.Store buf value idx pred) =
      (if pairs.length ≠ 0 then
        match MakeCondition simplify pairs with
        | .StringImm _ => (.Store buf value idx pred, mem,
            { sc4 with processStore := false, collector := pairs })
        | _ => (.IfThenElse (MakeCondition simplify pairs)
            (.Store buf value idx pred)
            (.AssertStmt (MakeCondition simplify pairs)
              (.StringImm "OUT OF THE BOUNDS")
              (.Evaluate (makeConst i32 1))), mem,
            { sc4 with processStore := false, collector := pairs })
       else (.Store buf value idx pred, mem,
            { sc4 with processStore := false, collector := pairs })) := by
    rw [bcVisitStmt, h4]
    have hcoll : ({ sc4 with processStore := false } : BCScratch).collector
        = sc4.collector := rfl
    by_cases hci : CanInstrument mem sc4.unsafeRewritten idx buf = true
    · rw [if_pos hci] at hpairs
      simp only [hci, if_true, bcCollect, hcoll]
      rw [← hpairs]
    · simp only [Bool.not_eq_true] at hci
      simp only [hci, Bool.false_eq_true, if_false, List.append_nil] at hpairs
      simp only [hci, Bool.false_eq_true, if_false]
      rw [← hpairs]
  refine ⟨?_, ?_, ?_, ?_⟩
  · intro hne hnstr
    rw [hmain]
    rw [if_pos (by simpa using hne)]
    cases hmc : MakeCondition simplify pairs with
    | StringImm s => exact absurd hmc (hnstr s)
    | Variable n t => rfl
    | IntImm t v => rfl
    | Load t b i p => rfl
    | Call t n args ct => rfl
    | Ramp b s l => rfl
    | Add a b => rfl
    | Mul a b => rfl
    | Div a b => rfl
    | GE a b => rfl
    | LT a b => rfl
    | And a b => rfl
    | Cast t a => rfl
  · intro str hstr
    rw [hmain]
    by_cases hne : pairs.length ≠ 0
    · rw [if_pos hne, hstr]
    · rw [if_neg hne]
  · intro p rest
    rfl
  · intro a ub
    cases a <;> rfl

/-- Witness for C2: a scalar store to a buffer with attested shape 128
is wrapped in the guard/assert conditional. -/
theorem c2_bound_check_wrap_witness :
    (bcVisitStmt id [("A", .IntImm i32 128)] {}
      (.Store "A" (.IntImm i32 7) (.Variable "i" i32) (.IntImm boolTy 1))).1 =
    .IfThenElse
      (.And (.GE (.Cast i64 (.Variable "i" i32)) (.IntImm i64 0))
        (.LT (.Cast i64 (.Variable "i" i32)) (.Cast i64 (.IntImm i32 128))))
      (.Store "A" (.IntImm i32 7) (.Variable "i" i32) (.IntImm boolTy 1))
      (.AssertStmt
        (.And (.GE (.Cast i64 (.Variable "i" i32)) (.IntImm i64 0))
          (.LT (.Cast i64 (.Variable "i" i32)) (.Cast i64 (.IntImm i32 128))))
        (.StringImm "OUT OF THE BOUNDS") (.Evaluate (.IntImm i32 1))) := by
  have h := (c2_bound_check_wrap id [("A", .IntImm i32 128)] {} "A"
    (.IntImm i32 7) (.Variable "i" i32) (.IntImm boolTy 1)
    { processStore := true, unsafeRewritten := false, collector := [] }
    [(.Variable "i" i32, .IntImm i32 128)]
    (by simp [bcCollectExpr]) (by rfl)).1
  rw [h (by simp) (by intro str h; simp [MakeCondition, condFor] at h)]
  rfl

/-- Once `unsafe_rewritten_` is set it is never cleared by the
expression walk. -/
theorem bcCollectExpr_unsafe_mono :
    ∀ (mem : List (String × Expr)) (sc : BCScratch) (e : Expr),
      sc.unsafeRewritten = true →
      (bcCollectExpr mem sc e).unsafeRewritten = true := by
  intro mem
  refine bcCollectExpr.induct mem
    (fun sc e => sc.unsafeRewritten = true →
      (bcCollectExpr mem sc e).unsafeRewritten = true)
    (fun sc l => sc.unsafeRewritten = true →
      (bcCollectExprList mem sc l).unsafeRewritten = true)
    ?_ ?_ ?_ ?_ ?_ ?_ ?_ ?_ ?_ ?_ ?_ ?_ ?_ ?_ ?_
  all_goals try (intros
                 simp_all [bcCollectExpr, bcCollectExprList, bcCollect]
                 done)
  intro sc0 dt bufn idx prd sc1 ihA ihB ihC h
  rw [bcCollectExpr]
  apply ihC
  apply ihA
  show (if CanInstrument mem sc0.unsafeRewritten idx bufn = true
        then bcCollect mem sc0 idx bufn else sc0).unsafeRewritten = true
  split
  · simp [bcCollect, h]
  · exact h
  intro sc0 dt nm args ct sc1 ihL h
  rw [bcCollectExpr]
  apply ihL
  show (if (sc0.processStore && nm == "tvm_if_then_else") = true
        then { processStore := sc0.processStore, unsafeRewritten := true,
               collector := sc0.collector } else sc0).unsafeRewritten = true
  split
  · rfl
  · exact h

theorem bcCollectExprList_unsafe_mono :
    ∀ (mem : List (String × Expr)) (l : List Expr) (sc : BCScratch),
      sc.unsafeRewritten = true →
      (bcCollectExprList mem sc l).unsafeRewritten = true := by
  intro mem l
  induction l with
  | nil => intro sc h; rw [bcCollectExprList]; exact h
  | cons e rest ih =>
    intro sc h
    rw [bcCollectExprList]
    exact ih _ (bcCollectExpr_unsafe_mono mem sc e h)

/-- C8: unwrapped skips.  (a) A store that is not instrumentable — no
declared shape for its buffer, a malformed index, or the unsafe flag
set by a `tvm_if_then_else` in its subtree — and whose recursion
collected no loads is returned unchanged, with no `IfThenElse` or
`AssertStmt` around it.  (b) Visiting a `tvm_if_then_else` intrinsic
inside a store's value sets (and the rest of the walk keeps) the
unsafe flag. -/
theorem c8_unwrapped_store_skip :
    (∀ (simplify : Expr → Expr) (mem : List (String × Expr)) (sc : BCScratch)
       (buf : String) (value idx pred : Expr) (sc4 : BCScratch),
       bcCollectExpr mem (bcCollectExpr mem (bcCollectExpr mem
         { processStore := true, unsafeRewritten := false, collector := [] }
         value) idx) pred = sc4 →
       (lookupMap mem buf = none ∨ IndexIsValid idx = false ∨
         sc4.unsafeRewritten = true) →
       sc4.collector = [] →
       bcVisitStmt simplify mem sc (.Store buf value idx pred) =
         (.Store buf value idx pred, mem,
          { sc4 with processStore := false })) ∧
    (∀ (mem : List (String × Expr)) (sc : BCScratch) (t : DataType)
       (args : List Expr) (ct : Nat),
       sc.processStore = true →
       (bcCollectExpr mem sc
         (.Call t "tvm_if_then_else" args ct)).unsafeRewritten = true) := by
  constructor
  · intro simplify mem sc buf value idx pred sc4 h4 hdisj hcoll
    have hci : CanInstrument mem sc4.unsafeRewritten idx buf = false := by
      rcases hdisj with h | h | h <;> simp [CanInstrument, h]
    rw [bcVisitStmt, h4]
    simp only [hci, Bool.false_eq_true, if_false]
    simp only [hcoll, List.length_nil, ne_eq, not_true_eq_false, if_false]
  · intro mem sc t args ct h
    rw [bcCollectExpr]
    rw [if_pos (by simp [h])]
    exact bcCollectExprList_unsafe_mono mem args _ rfl

/-- Witness for C8: a store to a buffer with no attested shape is
returned unwrapped; a `tvm_if_then_else` call inside a store sets the
unsafe flag. -/
theorem c8_unwrapped_store_skip_witness :
    (bcVisitStmt id [] {}
      (.Store "B" (.IntImm i32 7) (.Variable "i" i32) (.IntImm boolTy 1)) =
      (.Store "B" (.IntImm i32 7) (.Variable "i" i32) (.IntImm boolTy 1),
       [], { processStore := false, unsafeRewritten := false,
             collector := [] })) ∧
    (bcCollectExpr []
      { processStore := true, unsafeRewritten := false, collector := [] }
      (.Call i32 "tvm_if_then_else" [] 4)).unsafeRewritten = true := by
  constructor
  · exact c8_unwrapped_store_skip.1 id [] {} "B" (.IntImm i32 7)
      (.Variable "i" i32) (.IntImm boolTy 1)
      { processStore := true, unsafeRewritten := false, collector := [] }
      (by simp [bcCollectExpr]) (Or.inl rfl) rfl
  · exact c8_unwrapped_store_skip.2 [] _ i32 [] 4 rfl

theorem scanExtents_map_some :
    ∀ (l : List Expr), scanExtents (l.map some) =
      .ok (l.all fun e => e.dtypeOf.isScalar && !isNegativeConst e) := by
  intro l
  induction l with
  | nil => rfl
  | cons e rest ih =>
    simp only [List.map_cons, scanExtents, List.all_cons]
    by_cases hb : (!e.dtypeOf.isScalar || isNegativeConst e) = true
    · rw [if_pos hb]
      rcases Bool.or_eq_true_iff.mp hb with h | h
      · simp [Bool.not_eq_true'] at h
        simp [h]
      · simp [h]
    · rw [if_neg hb]
      simp only [Bool.or_eq_true, Bool.not_eq_true', not_or,
        Bool.not_eq_true] at hb
      simp [hb.1, hb.2, ih]

/-- Counterexample to C6 as stated: with a defined first extent and an
undefined second extent, `Update` does not skip — the check loop only
tests `new_shape[0].defined()`, so it reads `dtype()` off the null
second extent (modelled as an error), leaving neither a skip nor an
update. -/
theorem c6_update_skip_counterexample :
    Update [("B", .IntImm i32 7)] "B" [some (.IntImm i32 2), none] i32 =
      .error "null Expr dtype access" ∧
    Update [("B", .IntImm i32 7)] "B" [some (.IntImm i32 2), none] i32 ≠
      .ok [("B", .IntImm i32 7)] := by
  constructor
  · rfl
  · intro h
    rw [Update] at h
    simp [scanExtents, Bind.bind, Except.bind, Expr.dtypeOf,
      DataType.isScalar, isNegativeConst, i32] at h

/-- Amended C6: the update is skipped when the extent list is empty,
when the first extent is undefined, or when all extents are defined
and some extent is non-scalar or a negative constant.  (An undefined
extent in a later position aborts on a null-dtype access instead of
skipping; see the counterexample.) -/
theorem c6_update_skip_amended :
    (∀ (m : List (String × Expr)) (buf : String) (t : DataType),
      Update m buf [] t = .ok m) ∧
    (∀ (m : List (String × Expr)) (buf : String) (t : DataType)
       (rest : List (Option Expr)),
      Update m buf (none :: rest) t = .ok m) ∧
    (∀ (m : List (String × Expr)) (buf : String) (t : DataType)
       (l : List Expr),
      (∃ e ∈ l, e.dtypeOf.isScalar = false ∨ isNegativeConst e = true) →
      Update m buf (l.map some) t = .ok m) := by
  refine ⟨fun m buf t => rfl, fun m buf t rest => rfl, ?_⟩
  intro m buf t l hbad
  have hall : (l.all fun e => e.dtypeOf.isScalar && !isNegativeConst e)
      = false := by
    obtain ⟨e, he, hb⟩ := hbad
    apply List.all_eq_false.mpr
    refine ⟨e, he, ?_⟩
    rcases hb with h | h <;> simp [h]
  cases l with
  | nil => simp at hall
  | cons e0 rest =>
    simp only [List.map_cons]
    rw [Update]
    simp only [Option.isNone_some, Bool.false_eq_true,
      if_false, Bind.bind, Except.bind]
    rw [← List.map_cons some e0 rest, scanExtents_map_some, hall]
    rfl

/-- Witness for the amended C6: a negative-constant extent after a
valid one skips the update. -/
theorem c6_update_skip_amended_witness :
    Update [("B", .IntImm i32 7)] "B"
      ([.IntImm i32 2, .IntImm i32 (-1)].map some) i32 =
      .ok [("B", .IntImm i32 7)] := by
  exact c6_update_skip_amended.2.2 _ _ _ _
    ⟨.IntImm i32 (-1), by simp, Or.inr (by simp [isNegativeConst, i32])⟩

/-- C7: when the update does happen, the recorded shape is the
unsigned-64-bit product `lanes * e0 * lanes * e1 * ...`, every extent
cast to `UInt(64)` and multiplied by the dtype's lane count. -/
theorem c7_update_shape_product :
    ∀ (m : List (String × Expr)) (buf : String) (t : DataType)
      (e0 : Expr) (rest : List Expr),
      (∀ e ∈ e0 :: rest,
        e.dtypeOf.isScalar = true ∧ isNegativeConst e = false) →
      Update m buf ((e0 :: rest).map some) t =
        .ok (setMap m buf
          (rest.foldl
            (fun acc e => .Mul acc
              (.Mul (makeConst u64 (t.lanes : Int)) (.Cast u64 e)))
            (.Mul (makeConst u64 (t.lanes : Int)) (.Cast u64 e0)))) := by
  intro m buf t e0 rest hok
  have hall : ((e0 :: rest).all
      fun e => e.dtypeOf.isScalar && !isNegativeConst e) = true := by
    apply List.all_eq_true.mpr
    intro e he
    simp [(hok e he).1, (hok e he).2]
  simp only [List.map_cons]
  rw [Update]
  simp only [Option.isNone_some, Bool.false_eq_true,
    if_false, Bind.bind, Except.bind]
  rw [← List.map_cons some e0 rest, scanExtents_map_some, hall]
  simp only [if_true]
  simp only [List.map_cons, buildShape]
  rw [List.foldl_map]
  rfl

/-- Witness for C7 at concrete extents `[2, 3]`, lanes 4. -/
theorem c7_update_shape_product_witness :
    Update [] "B" ([.IntImm i32 2, .IntImm i32 3].map some) ⟨0, 32, 4⟩ =
      .ok [("B",
        .Mul (.Mul (.IntImm u64 4) (.Cast u64 (.IntImm i32 2)))
          (.Mul (.IntImm u64 4) (.Cast u64 (.IntImm i32 3))))] := by
  exact c7_update_shape_product [] "B" ⟨0, 32, 4⟩ (.IntImm i32 2)
    [.IntImm i32 3]
    (by intro e he
        simp only [List.mem_cons, List.mem_singleton] at he
        rcases he with h | h | h <;>
          first
            | (subst h; exact ⟨rfl, rfl⟩)
            | simp at h)

/-- The pre-order sequence of `(var, value)` pairs of `buffer_bound`
attributes with variable nodes. -/
def boundAttrs : Stmt → List (String × Expr)
  | .AttrStmt node key value body =>
      (if key == "buffer_bound" then
         match node with
         | .varNode n _ => [(n, value)]
         | _ => []
       else []) ++ boundAttrs body
  | .LetStmt _ _ _ body => boundAttrs body
  | .Store _ _ _ _ => []
  | .For _ _ _ _ _ _ body => boundAttrs body
  | .Evaluate _ => []
  | .Allocate _ _ _ _ body _ => boundAttrs body
  | .IfThenElse _ a b => boundAttrs a ++ boundAttrs b
  | .IfThen _ a => boundAttrs a
  | .Block a b => boundAttrs a ++ boundAttrs b
  | .AssertStmt _ _ body => boundAttrs body

/-- Does the statement contain an `Allocate` node? -/
def noAllocate : Stmt → Bool
  | .LetStmt _ _ _ body => noAllocate body
  | .Store _ _ _ _ => true
  | .For _ _ _ _ _ _ body => noAllocate body
  | .Evaluate _ => true
  | .Allocate _ _ _ _ _ _ => false
  | .AttrStmt _ _ _ body => noAllocate body
  | .IfThenElse _ a b => noAllocate a && noAllocate b
  | .IfThen _ a => noAllocate a
  | .Block a b => noAllocate a && noAllocate b
  | .AssertStmt _ _ body => noAllocate body

theorem boundCollect_foldl :
    ∀ (s : Stmt) (m : List (String × Expr)),
      boundCollect m s =
        (boundAttrs s).foldl (fun acc p => setMap acc p.1 p.2) m := by
  intro s
  induction s with
  | LetStmt v t value body ih => intro m; simp [boundCollect, boundAttrs, ih]
  | Store b v i p => intro m; simp [boundCollect, boundAttrs]
  | For lv t mn ext ft dev body ih =>
      intro m; simp [boundCollect, boundAttrs, ih]
  | Evaluate v => intro m; simp [boundCollect, boundAttrs]
  | Allocate b t e c body ne ih =>
      intro m; simp [boundCollect, boundAttrs, ih]
  | AttrStmt node key value body ih =>
      intro m
      simp only [boundCollect, boundAttrs, ih, List.foldl_append]
      by_cases hk : (key == "buffer_bound") = true
      · simp only [hk, if_true]
        cases node <;> simp
      · simp only [hk, Bool.false_eq_true, if_false]
        simp
  | IfThenElse c a b iha ihb =>
      intro m
      simp [boundCollect, boundAttrs, iha, ihb, List.foldl_append]
  | IfThen c a iha => intro m; simp [boundCollect, boundAttrs, iha]
  | Block a b iha ihb =>
      intro m
      simp [boundCollect, boundAttrs, iha, ihb, List.foldl_append]
  | AssertStmt c msg body ih => intro m; simp [boundCollect, boundAttrs, ih]

theorem lookup_foldl_setMap_last :
    ∀ (l2 : List (String × Expr)) (m : List (String × Expr)) (v : String),
      (∀ p ∈ l2, p.1 ≠ v) →
      lookupMap (l2.foldl (fun acc p => setMap acc p.1 p.2) m) v =
        lookupMap m v := by
  intro l2
  induction l2 with
  | nil => intro m v _; rfl
  | cons p rest ih =>
    intro m v hne
    simp only [List.foldl_cons]
    rw [ih _ _ (fun q hq => hne q (List.mem_cons_of_mem _ hq))]
    exact lookupMap_setMap_other m p.1 v p.2 (hne p (by simp))

theorem bcVisitStmt_mem_noAllocate :
    ∀ (s : Stmt) (simplify : Expr → Expr) (mem : List (String × Expr))
      (sc : BCScratch), noAllocate s = true →
      (bcVisitStmt simplify mem sc s).2.1 = mem := by
  intro s
  induction s with
  | LetStmt v t value body ih =>
      intro simplify mem sc h
      simp only [bcVisitStmt]
      exact ih simplify mem _ h
  | Store b v i p =>
      intro simplify mem sc h
      rw [bcVisitStmt]
      dsimp only
      split <;> split <;> ((try split) <;> rfl)
  | For lv t mn ext ft dev body ih =>
      intro simplify mem sc h
      simp only [bcVisitStmt]
      exact ih simplify mem _ h
  | Evaluate v => intro simplify mem sc h; rfl
  | Allocate b t e c body ne ih =>
      intro simplify mem sc h
      simp [noAllocate] at h
  | AttrStmt node key value body ih =>
      intro simplify mem sc h
      simp only [bcVisitStmt]
      exact ih simplify mem _ h
  | IfThenElse c a b iha ihb =>
      intro simplify mem sc h
      simp only [noAllocate, Bool.and_eq_true] at h
      rw [bcVisitStmt]
      have ha := iha simplify mem (bcCollectExpr mem sc c) h.1
      rcases hra : bcVisitStmt simplify mem (bcCollectExpr mem sc c) a
        with ⟨a1, mem1, sc1⟩
      rw [hra] at ha
      simp only at ha
      have hb := ihb simplify mem1 sc1 h.2
      rcases hrb : bcVisitStmt simplify mem1 sc1 b with ⟨b1, mem2, sc2⟩
      rw [hrb] at hb
      simp only at hb
      dsimp only
      rw [hrb]
      dsimp only
      rw [hb, ha]
  | IfThen c a iha =>
      intro simplify mem sc h
      simp only [bcVisitStmt]
      exact iha simplify mem _ h
  | Block a b iha ihb =>
      intro simplify mem sc h
      simp only [noAllocate, Bool.and_eq_true] at h
      rw [bcVisitStmt]
      have ha := iha simplify mem sc h.1
      rcases hra : bcVisitStmt simplify mem sc a with ⟨a1, mem1, sc1⟩
      rw [hra] at ha
      simp only at ha
      have hb := ihb simplify mem1 sc1 h.2
      rcases hrb : bcVisitStmt simplify mem1 sc1 b with ⟨b1, mem2, sc2⟩
      rw [hrb] at hb
      simp only at hb
      dsimp only
      rw [hrb]
      dsimp only
      rw [hb, ha]
  | AssertStmt c msg body ih =>
      intro simplify mem sc h
      simp only [bcVisitStmt]
      exact ih simplify mem _ h

/-- A statement with two `buffer_bound` attributes for the same buffer
and a store outside the second attribute's body. -/
def c10Example : Stmt :=
  .Block
    (.AttrStmt (.varNode "A" handleTy) "buffer_bound" (.IntImm i32 64)
      (.AttrStmt (.varNode "A" handleTy) "buffer_bound" (.IntImm i32 128)
        (.Evaluate (.IntImm i32 0))))
    (.Store "A" (.IntImm i32 7) (.Variable "i" i32) (.IntImm boolTy 1))

/-- C10: the bound table is global, not scoped.  (a) The collector's
result is the plain left fold of the pre-order `buffer_bound`
attribute sequence over the incoming table — the attribute's body
plays no role in its scope, so any store anywhere sees the same final
table.  (b) In that fold the last write for a variable wins.  (c) The
mutation walk leaves the table unchanged on any statement without an
`Allocate` (the `Allocate` handler is the only writer). -/
theorem c10_global_bound_table :
    (∀ (s : Stmt) (m : List (String × Expr)),
      boundCollect m s =
        (boundAttrs s).foldl (fun acc p => setMap acc p.1 p.2) m) ∧
    (∀ (m : List (String × Expr)) (v : String) (val : Expr)
       (l1 l2 : List (String × Expr)),
      (∀ p ∈ l2, p.1 ≠ v) →
      lookupMap ((l1 ++ (v, val) :: l2).foldl
        (fun acc p => setMap acc p.1 p.2) m) v = some val) ∧
    (∀ (s : Stmt) (simplify : Expr → Expr) (mem : List (String × Expr))
       (sc : BCScratch), noAllocate s = true →
      (bcVisitStmt simplify mem sc s).2.1 = mem) := by
  refine ⟨boundCollect_foldl, ?_, bcVisitStmt_mem_noAllocate⟩
  intro m v val l1 l2 hl2
  rw [List.foldl_append, List.foldl_cons]
  rw [lookup_foldl_setMap_last l2 _ v hl2]
  exact lookupMap_setMap_self _ v val

/-- Witness for C10: two `buffer_bound` attributes for `A` in
pre-order; the later one wins even for a store outside its body, and
the allocate-free mutation leaves the table untouched. -/
theorem c10_global_bound_table_witness :
    (boundCollect [] c10Example =
      (boundAttrs c10Example).foldl (fun acc p => setMap acc p.1 p.2) []) ∧
    (lookupMap (([("A", Expr.IntImm i32 5)] ++
        ("A", Expr.IntImm i32 128) :: [("B", Expr.IntImm i32 7)]).foldl
        (fun acc p => setMap acc p.1 p.2) []) "A" =
      some (Expr.IntImm i32 128)) ∧
    (bcVisitStmt id [("A", Expr.IntImm i32 128)] {}
      (.Evaluate (.IntImm i32 0))).2.1 = [("A", Expr.IntImm i32 128)] := by
  exact ⟨c10_global_bound_table.1 c10Example [],
    c10_global_bound_table.2.1 [] "A" (Expr.IntImm i32 128)
      [("A", Expr.IntImm i32 5)] [("B", Expr.IntImm i32 7)]
      (by intro p hp; simp at hp; simp [hp]),
    c10_global_bound_table.2.2 (.Evaluate (.IntImm i32 0)) id
      [("A", Expr.IntImm i32 128)] {} rfl⟩
